import Mathlib

set_option maxHeartbeats 1600000
set_option maxRecDepth 8192

/-!
Verification of the reader/writer mutual-exclusion lock (`RWMutex` of the
`sync` package).  Two embeddings of the same source code are developed:

* a functional layer (`RWMutex`, `RWMutex.RLock`, …): each public method is
  transcribed as a function on the lock state, run without interference from
  other threads.  Signed 32-bit atomic arithmetic is modelled by `Int`
  together with an explicit two's-complement wrap `wrap32`.  The two runtime
  semaphores are modelled as permit counters; a `semacquire` that would block
  is reported through the `parked`/`blocked` flags of `OpResult` and leaves
  the permit counters to the concurrent layer.

* a concurrent layer (namespace `Conc`): a small-step transition system in
  which every atomic instruction of every method is one transition of one
  thread, so that all interleavings of concurrent calls are covered.
-/

/-- Two's-complement wraparound of signed 32-bit integer arithmetic:
`wrap32 x` is the unique integer congruent to `x` modulo `2^32` lying in
`[-2^31, 2^31)`.  Every `atomic.Int32` add/store of the source is modelled
as `wrap32` of the exact integer result. -/
def wrap32 (x : Int) : Int :=
  (x + 2147483648) % 4294967296 - 2147483648

theorem wrap32_eq_self {x : Int} (h1 : -2147483648 ≤ x) (h2 : x < 2147483648) :
    wrap32 x = x := by
  unfold wrap32; omega

theorem wrap32_lb (x : Int) : -2147483648 ≤ wrap32 x := by
  unfold wrap32; omega

theorem wrap32_ub (x : Int) : wrap32 x < 2147483648 := by
  unfold wrap32; omega

/-- `const rwmutexMaxReaders = 1 << 30`: maximum number of readers. -/
def rwmutexMaxReaders : Int := ((1 <<< 30 : Nat) : Int)

theorem rwmutexMaxReaders_eq : rwmutexMaxReaders = 1073741824 := by
  unfold rwmutexMaxReaders
  decide

/-- The `RWMutex` struct.  Field names follow the source: `w` is the inner
mutex (modelled as its locked/unlocked state), `writerSem`/`readerSem` are
the two runtime semaphores (modelled as permit counts), `readerCount` and
`readerWait` are the two signed 32-bit atomic counters. -/
structure RWMutex where
  w : Bool
  writerSem : Nat
  readerSem : Nat
  readerCount : Int
  readerWait : Int
deriving DecidableEq, Repr

/-- Result of running one method sequentially: the lock state after all the
atomic operations the calling thread itself performs, the boolean return
value (for the Try variants), whether `fatal` was called, whether the call
parks on one of the two semaphores, and whether it blocks acquiring the
inner mutex `w`. -/
structure OpResult where
  rw : RWMutex
  ok : Bool := true
  fatal : Bool := false
  parked : Bool := false
  blocked : Bool := false
deriving DecidableEq, Repr

/-- `RLock`: `if rw.readerCount.Add(1) < 0 { runtime_SemacquireRWMutexR(&rw.readerSem, …) }`. -/
def RWMutex.RLock (rw : RWMutex) : OpResult :=
  let c := wrap32 (rw.readerCount + 1)
  { rw := { rw with readerCount := c }, parked := decide (c < 0) }

/-- `TryRLock`: load `readerCount`; fail if negative; otherwise CAS it to the
observed value plus one.  Sequentially the CAS cannot lose a race, so the
retry loop of the source runs exactly once; the retry structure itself is
modelled in the concurrent layer. -/
def RWMutex.TryRLock (rw : RWMutex) : OpResult :=
  let c := rw.readerCount
  if c < 0 then
    { rw := rw, ok := false }
  else
    { rw := { rw with readerCount := wrap32 (c + 1) }, ok := true }

/-- `rUnlockSlow`: fatal if `r+1 == 0 || r+1 == -rwmutexMaxReaders`; otherwise
`if rw.readerWait.Add(-1) == 0 { runtime_Semrelease(&rw.writerSem, false, 1) }`. -/
def RWMutex.rUnlockSlow (rw : RWMutex) (r : Int) : OpResult :=
  if r + 1 = 0 ∨ r + 1 = -rwmutexMaxReaders then
    { rw := rw, fatal := true }
  else
    let wv := wrap32 (rw.readerWait - 1)
    if wv = 0 then
      { rw := { rw with readerWait := wv, writerSem := rw.writerSem + 1 } }
    else
      { rw := { rw with readerWait := wv } }

/-- `RUnlock`: `if r := rw.readerCount.Add(-1); r < 0 { rw.rUnlockSlow(r) }`. -/
def RWMutex.RUnlock (rw : RWMutex) : OpResult :=
  let r := wrap32 (rw.readerCount - 1)
  let rw1 := { rw with readerCount := r }
  if r < 0 then
    RWMutex.rUnlockSlow rw1 r
  else
    { rw := rw1 }

/-- `Lock`: `rw.w.Lock()` (blocks while the inner mutex is held, reported via
`blocked`); then `r := rw.readerCount.Add(-rwmutexMaxReaders) + rwmutexMaxReaders`;
then `if r != 0 && rw.readerWait.Add(r) != 0 { runtime_SemacquireRWMutex(&rw.writerSem, …) }`
with the same short-circuit as the source. -/
def RWMutex.Lock (rw : RWMutex) : OpResult :=
  if rw.w then
    { rw := rw, blocked := true }
  else
    let rw1 := { rw with w := true }
    let c := wrap32 (rw1.readerCount - rwmutexMaxReaders)
    let r := c + rwmutexMaxReaders
    let rw2 := { rw1 with readerCount := c }
    if r ≠ 0 then
      let wv := wrap32 (rw2.readerWait + r)
      { rw := { rw2 with readerWait := wv }, parked := decide (wv ≠ 0) }
    else
      { rw := rw2 }

/-- `TryLock`: `if !rw.w.TryLock() { return false }`; then
`if !rw.readerCount.CompareAndSwap(0, -rwmutexMaxReaders) { rw.w.Unlock(); return false }`;
`return true`. -/
def RWMutex.TryLock (rw : RWMutex) : OpResult :=
  if rw.w then
    { rw := rw, ok := false }
  else
    let rw1 := { rw with w := true }
    if rw1.readerCount = 0 then
      { rw := { rw1 with readerCount := -rwmutexMaxReaders }, ok := true }
    else
      { rw := { rw1 with w := false }, ok := false }

/-- `Unlock`: `r := rw.readerCount.Add(rwmutexMaxReaders)`; fatal if
`r >= rwmutexMaxReaders`; otherwise the loop `for i := 0; i < int(r); i++`
releases `r` permits on `readerSem` (net effect of the loop), and finally
`rw.w.Unlock()`. -/
def RWMutex.Unlock (rw : RWMutex) : OpResult :=
  let r := wrap32 (rw.readerCount + rwmutexMaxReaders)
  let rw1 := { rw with readerCount := r }
  if rwmutexMaxReaders ≤ r then
    { rw := rw1, fatal := true }
  else
    { rw := { rw1 with readerSem := rw1.readerSem + r.toNat, w := false } }

namespace Conc

/-- Status of one thread: either outside any call, or at a program point of
one of the `RWMutex` methods, between two of its atomic instructions.
`runlockSlow r` stores the result `r` of this thread's `readerCount.Add(-1)`
(argument of `rUnlockSlow`); `lockNoted r0` stores the recovered reader count
`r` of `Lock`; `unlockLoop k` stores the remaining iterations of `Unlock`'s
release loop; `tryRLoaded c` stores the value of `readerCount` observed by
`TryRLock`'s load. -/
inductive TStatus where
  /-- Not inside any call; read lock not held. -/
  | idle
  /-- Inside `RLock`, parked on `readerSem`. -/
  | rlockPark
  /-- Holds a read lock (`RLock`/`TryRLock` returned, `RUnlock` not called). -/
  | reading
  /-- Inside `rUnlockSlow r`, before `readerWait.Add(-1)`. -/
  | runlockSlow (r : Int)
  /-- Inside `Lock`, inner mutex `w` acquired, before the bias subtraction. -/
  | lockPre
  /-- Inside `Lock`, bias done with recovered reader count `r0 ≠ 0`, before `readerWait.Add(r0)`. -/
  | lockNoted (r0 : Int)
  /-- Inside `Lock`, parked on `writerSem`. -/
  | lockPark
  /-- Holds the write lock (`Lock`/`TryLock` returned, `Unlock` not called). -/
  | writing
  /-- Inside `Unlock`, bias removed, `k` iterations of the release loop remain. -/
  | unlockLoop (k : Nat)
  /-- Inside `TryLock`, inner mutex `w` acquired, before the CAS. -/
  | tryPre
  /-- Inside `TryLock`, CAS failed, before releasing `w`. -/
  | tryBail
  /-- Inside `TryRLock`, loaded `readerCount` value `c`, before the CAS. -/
  | tryRLoaded (c : Int)
  /-- Inside `TryRLock`, CAS failed, before reloading `readerCount`. -/
  | tryRRetry
  /-- `fatal` was called by this thread. -/
  | fataled
deriving DecidableEq, Repr

/-- Global state of one `RWMutex` shared by `n` threads: the status of every
thread plus the five fields of the struct (the inner mutex `w` as its
locked/unlocked state, the two semaphores as permit counts). -/
structure MState (n : Nat) where
  ts : Fin n → TStatus
  wlocked : Bool
  readerCount : Int
  readerWait : Int
  readerSem : Nat
  writerSem : Nat

/-- Number of threads whose status satisfies `g`. -/
def cnt {n : Nat} (g : TStatus → Bool) (f : Fin n → TStatus) : Nat :=
  ∑ t : Fin n, if g (f t) then 1 else 0

/-- Thread is in its read-side critical section. -/
def isReading : TStatus → Bool
  | .reading => true
  | _ => false

/-- Thread is parked on `readerSem`. -/
def isRPark : TStatus → Bool
  | .rlockPark => true
  | _ => false

/-- Thread is inside `rUnlockSlow`, past its `readerCount.Add(-1)` but before
its `readerWait.Add(-1)`. -/
def isSlow : TStatus → Bool
  | .runlockSlow _ => true
  | _ => false

/-- Thread holds the inner mutex `w`. -/
def isHolder : TStatus → Bool
  | .lockPre | .lockNoted _ | .lockPark | .writing | .unlockLoop _
  | .tryPre | .tryBail => true
  | _ => false

/-- Thread is a writer past the bias subtraction and before `Unlock`'s
bias-removing add: `readerCount` carries the `-rwmutexMaxReaders` offset. -/
def isBiased : TStatus → Bool
  | .lockNoted _ | .lockPark | .writing => true
  | _ => false

/-- Thread is a writer past the bias subtraction and before the end of
`Unlock`'s release loop. -/
def isBiasedOrLoop : TStatus → Bool
  | .lockNoted _ | .lockPark | .writing | .unlockLoop _ => true
  | _ => false

/-- Thread is a writer between the bias subtraction and the completion of
the reader drain. -/
def isNotedOrPark : TStatus → Bool
  | .lockNoted _ | .lockPark => true
  | _ => false

/-- Thread is registered in `readerCount` as a reader. -/
def isReg : TStatus → Bool := fun st => isReading st || isRPark st

theorem cnt_update {n : Nat} (g : TStatus → Bool) (f : Fin n → TStatus)
    (t : Fin n) (v : TStatus) :
    cnt g (Function.update f t v) + (if g (f t) then 1 else 0)
      = cnt g f + (if g v then 1 else 0) := by
  unfold cnt
  rw [← Finset.sum_erase_add _ _ (Finset.mem_univ t),
      ← Finset.sum_erase_add _ _ (Finset.mem_univ t)]
  have he : ∀ x ∈ Finset.univ.erase t,
      (if g (Function.update f t v x) then 1 else 0)
        = (if g (f x) then (1 : Nat) else 0) := by
    intro x hx
    rw [Function.update_noteq (Finset.mem_erase.mp hx).1]
  rw [Finset.sum_congr rfl he, Function.update_same]
  omega

theorem cnt_update_eq {n : Nat} (g : TStatus → Bool) (f : Fin n → TStatus)
    (t : Fin n) (v : TStatus) (h : g v = g (f t)) :
    cnt g (Function.update f t v) = cnt g f := by
  have := cnt_update g f t v
  rw [h] at this
  omega

theorem cnt_update_add {n : Nat} (g : TStatus → Bool) (f : Fin n → TStatus)
    (t : Fin n) (v : TStatus) (h1 : g (f t) = false) (h2 : g v = true) :
    cnt g (Function.update f t v) = cnt g f + 1 := by
  have h0 := cnt_update g f t v
  have e1 : (if g (f t) then (1 : Nat) else 0) = 0 := by rw [h1]; rfl
  have e2 : (if g v then (1 : Nat) else 0) = 1 := by rw [h2]; rfl
  rw [e1, e2] at h0
  omega

theorem cnt_update_sub {n : Nat} (g : TStatus → Bool) (f : Fin n → TStatus)
    (t : Fin n) (v : TStatus) (h1 : g (f t) = true) (h2 : g v = false) :
    cnt g f = cnt g (Function.update f t v) + 1 := by
  have h0 := cnt_update g f t v
  have e1 : (if g (f t) then (1 : Nat) else 0) = 1 := by rw [h1]; rfl
  have e2 : (if g v then (1 : Nat) else 0) = 0 := by rw [h2]; rfl
  rw [e1, e2] at h0
  omega

theorem cnt_le {n : Nat} (g : TStatus → Bool) (f : Fin n → TStatus) :
    cnt g f ≤ n := by
  unfold cnt
  calc (∑ t : Fin n, if g (f t) then 1 else 0)
      ≤ ∑ _t : Fin n, 1 := by
        apply Finset.sum_le_sum
        intro i _
        split <;> omega
    _ = n := by simp

theorem cnt_add_one_le {n : Nat} (g : TStatus → Bool) (f : Fin n → TStatus)
    (a : Fin n) (ha : g (f a) = false) :
    cnt g f + 1 ≤ n := by
  unfold cnt
  rw [← Finset.sum_erase_add _ _ (Finset.mem_univ a)]
  have e1 : (if g (f a) then (1 : Nat) else 0) = 0 := by rw [ha]; rfl
  rw [e1]
  have hle : (∑ x ∈ Finset.univ.erase a, if g (f x) then (1 : Nat) else 0)
      ≤ ∑ _x ∈ Finset.univ.erase a, 1 := by
    apply Finset.sum_le_sum
    intro i _
    split <;> omega
  have hcard : (∑ _x ∈ Finset.univ.erase a, (1 : Nat)) = n - 1 := by
    rw [Finset.sum_const, smul_eq_mul, mul_one,
        Finset.card_erase_of_mem (Finset.mem_univ a), Finset.card_univ,
        Fintype.card_fin]
  have hpos : 0 < n := a.pos
  omega

theorem cnt_add_two_le {n : Nat} (g : TStatus → Bool) (f : Fin n → TStatus)
    (a b : Fin n) (hab : a ≠ b) (ha : g (f a) = false) (hb : g (f b) = false) :
    cnt g f + 2 ≤ n := by
  unfold cnt
  have hbmem : b ∈ Finset.univ.erase a :=
    Finset.mem_erase.mpr ⟨Ne.symm hab, Finset.mem_univ b⟩
  rw [← Finset.sum_erase_add _ _ (Finset.mem_univ a)]
  rw [← Finset.sum_erase_add _ _ hbmem]
  have e1 : (if g (f a) then (1 : Nat) else 0) = 0 := by rw [ha]; rfl
  have e2 : (if g (f b) then (1 : Nat) else 0) = 0 := by rw [hb]; rfl
  rw [e1, e2]
  have hle : (∑ x ∈ (Finset.univ.erase a).erase b, if g (f x) then (1 : Nat) else 0)
      ≤ ∑ _x ∈ (Finset.univ.erase a).erase b, 1 := by
    apply Finset.sum_le_sum
    intro i _
    split <;> omega
  have hcard1 : (Finset.univ.erase a).card = n - 1 := by
    rw [Finset.card_erase_of_mem (Finset.mem_univ a), Finset.card_univ,
        Fintype.card_fin]
  have hcard2 : (∑ _x ∈ (Finset.univ.erase a).erase b, (1 : Nat))
      = (Finset.univ.erase a).card - 1 := by
    rw [Finset.sum_const, smul_eq_mul, mul_one, Finset.card_erase_of_mem hbmem]
  have hge : 1 ≤ (Finset.univ.erase a).card := Finset.card_pos.mpr ⟨b, hbmem⟩
  have hpos : 0 < n := a.pos
  omega

theorem cnt_pos {n : Nat} (g : TStatus → Bool) (f : Fin n → TStatus)
    (t : Fin n) (h : g (f t) = true) : 1 ≤ cnt g f := by
  unfold cnt
  rw [← Finset.sum_erase_add _ _ (Finset.mem_univ t)]
  have e1 : (if g (f t) then (1 : Nat) else 0) = 1 := by rw [h]; rfl
  rw [e1]
  omega

theorem cnt_eq_zero {n : Nat} {g : TStatus → Bool} {f : Fin n → TStatus}
    (h : cnt g f = 0) (t : Fin n) : g (f t) = false := by
  by_contra hx
  have ht : g (f t) = true := by
    revert hx
    cases g (f t) <;> simp
  have := cnt_pos g f t ht
  omega

theorem cnt_or {n : Nat} (g h : TStatus → Bool) (f : Fin n → TStatus)
    (hd : ∀ st, ¬(g st = true ∧ h st = true)) :
    cnt (fun st => g st || h st) f = cnt g f + cnt h f := by
  unfold cnt
  rw [← Finset.sum_add_distrib]
  apply Finset.sum_congr rfl
  intro x _
  cases hg : g (f x) <;> cases hh : h (f x)
  · simp [hg, hh]
  · simp [hg, hh]
  · simp [hg, hh]
  · exact absurd ⟨hg, hh⟩ (hd (f x))

/-- One atomic instruction of one method executed by thread `t`, with one
constructor per program point and branch outcome of the source:
`RLock`'s `readerCount.Add(1)` and its park, `RUnlock`'s `readerCount.Add(-1)`,
`rUnlockSlow`'s fatal check and `readerWait.Add(-1)` (with and without the
`writerSem` release), `Lock`'s `w.Lock()`, bias subtraction, `readerWait.Add(r)`
and park, `Unlock`'s bias-removing add, fatal check, release loop and
`w.Unlock()`, `TryLock`'s `w.TryLock()`, CAS and rollback, and `TryRLock`'s
load/CAS/retry loop.  Semaphore parks consume one permit when they resume. -/
inductive Step {n : Nat} (t : Fin n) : MState n → MState n → Prop where
  | rlock_fast {s : MState n} (h : s.ts t = .idle)
      (hc : 0 ≤ wrap32 (s.readerCount + 1)) :
      Step t s { s with ts := Function.update s.ts t .reading,
                        readerCount := wrap32 (s.readerCount + 1) }
  | rlock_park {s : MState n} (h : s.ts t = .idle)
      (hc : wrap32 (s.readerCount + 1) < 0) :
      Step t s { s with ts := Function.update s.ts t .rlockPark,
                        readerCount := wrap32 (s.readerCount + 1) }
  | rlock_wake {s : MState n} (h : s.ts t = .rlockPark) (hp : 0 < s.readerSem) :
      Step t s { s with ts := Function.update s.ts t .reading,
                        readerSem := s.readerSem - 1 }
  | runlock_fast {s : MState n} (h : s.ts t = .reading)
      (hc : 0 ≤ wrap32 (s.readerCount - 1)) :
      Step t s { s with ts := Function.update s.ts t .idle,
                        readerCount := wrap32 (s.readerCount - 1) }
  | runlock_slow_enter {s : MState n} (h : s.ts t = .reading)
      (hc : wrap32 (s.readerCount - 1) < 0) :
      Step t s { s with ts := Function.update s.ts t
                          (.runlockSlow (wrap32 (s.readerCount - 1))),
                        readerCount := wrap32 (s.readerCount - 1) }
  | runlock_fatal {s : MState n} {r : Int} (h : s.ts t = .runlockSlow r)
      (hf : r + 1 = 0 ∨ r + 1 = -rwmutexMaxReaders) :
      Step t s { s with ts := Function.update s.ts t .fataled }
  | runlock_wait_dec {s : MState n} {r : Int} (h : s.ts t = .runlockSlow r)
      (hf : ¬(r + 1 = 0 ∨ r + 1 = -rwmutexMaxReaders))
      (hz : wrap32 (s.readerWait - 1) ≠ 0) :
      Step t s { s with ts := Function.update s.ts t .idle,
                        readerWait := wrap32 (s.readerWait - 1) }
  | runlock_wait_zero {s : MState n} {r : Int} (h : s.ts t = .runlockSlow r)
      (hf : ¬(r + 1 = 0 ∨ r + 1 = -rwmutexMaxReaders))
      (hz : wrap32 (s.readerWait - 1) = 0) :
      Step t s { s with ts := Function.update s.ts t .idle,
                        readerWait := wrap32 (s.readerWait - 1),
                        writerSem := s.writerSem + 1 }
  | lock_mutex {s : MState n} (h : s.ts t = .idle) (hw : s.wlocked = false) :
      Step t s { s with ts := Function.update s.ts t .lockPre, wlocked := true }
  | lock_bias_zero {s : MState n} (h : s.ts t = .lockPre)
      (hr : wrap32 (s.readerCount - rwmutexMaxReaders) + rwmutexMaxReaders = 0) :
      Step t s { s with ts := Function.update s.ts t .writing,
                        readerCount := wrap32 (s.readerCount - rwmutexMaxReaders) }
  | lock_bias_pos {s : MState n} (h : s.ts t = .lockPre)
      (hr : wrap32 (s.readerCount - rwmutexMaxReaders) + rwmutexMaxReaders ≠ 0) :
      Step t s { s with ts := Function.update s.ts t
                          (.lockNoted (wrap32 (s.readerCount - rwmutexMaxReaders)
                            + rwmutexMaxReaders)),
                        readerCount := wrap32 (s.readerCount - rwmutexMaxReaders) }
  | lock_wait_add_park {s : MState n} {r0 : Int} (h : s.ts t = .lockNoted r0)
      (hz : wrap32 (s.readerWait + r0) ≠ 0) :
      Step t s { s with ts := Function.update s.ts t .lockPark,
                        readerWait := wrap32 (s.readerWait + r0) }
  | lock_wait_add_zero {s : MState n} {r0 : Int} (h : s.ts t = .lockNoted r0)
      (hz : wrap32 (s.readerWait + r0) = 0) :
      Step t s { s with ts := Function.update s.ts t .writing,
                        readerWait := wrap32 (s.readerWait + r0) }
  | lock_wake {s : MState n} (h : s.ts t = .lockPark) (hq : 0 < s.writerSem) :
      Step t s { s with ts := Function.update s.ts t .writing,
                        writerSem := s.writerSem - 1 }
  | unlock_fatal {s : MState n} (h : s.ts t = .writing)
      (hf : rwmutexMaxReaders ≤ wrap32 (s.readerCount + rwmutexMaxReaders)) :
      Step t s { s with ts := Function.update s.ts t .fataled,
                        readerCount := wrap32 (s.readerCount + rwmutexMaxReaders) }
  | unlock_start {s : MState n} (h : s.ts t = .writing)
      (hf : wrap32 (s.readerCount + rwmutexMaxReaders) < rwmutexMaxReaders) :
      Step t s { s with ts := Function.update s.ts t
                          (.unlockLoop (wrap32 (s.readerCount + rwmutexMaxReaders)).toNat),
                        readerCount := wrap32 (s.readerCount + rwmutexMaxReaders) }
  | unlock_release {s : MState n} {k : Nat} (h : s.ts t = .unlockLoop k)
      (hk : 0 < k) :
      Step t s { s with ts := Function.update s.ts t (.unlockLoop (k - 1)),
                        readerSem := s.readerSem + 1 }
  | unlock_mutex {s : MState n} (h : s.ts t = .unlockLoop 0) :
      Step t s { s with ts := Function.update s.ts t .idle, wlocked := false }
  | trylock_mutex_fail {s : MState n} (h : s.ts t = .idle)
      (hw : s.wlocked = true) :
      Step t s s
  | trylock_mutex {s : MState n} (h : s.ts t = .idle) (hw : s.wlocked = false) :
      Step t s { s with ts := Function.update s.ts t .tryPre, wlocked := true }
  | trylock_cas_succ {s : MState n} (h : s.ts t = .tryPre)
      (hc : s.readerCount = 0) :
      Step t s { s with ts := Function.update s.ts t .writing,
                        readerCount := -rwmutexMaxReaders }
  | trylock_cas_fail {s : MState n} (h : s.ts t = .tryPre)
      (hc : s.readerCount ≠ 0) :
      Step t s { s with ts := Function.update s.ts t .tryBail }
  | trylock_bail {s : MState n} (h : s.ts t = .tryBail) :
      Step t s { s with ts := Function.update s.ts t .idle, wlocked := false }
  | tryrlock_load {s : MState n} (h : s.ts t = .idle) :
      Step t s { s with ts := Function.update s.ts t (.tryRLoaded s.readerCount) }
  | tryrlock_neg {s : MState n} {c : Int} (h : s.ts t = .tryRLoaded c)
      (hc : c < 0) :
      Step t s { s with ts := Function.update s.ts t .idle }
  | tryrlock_cas_succ {s : MState n} {c : Int} (h : s.ts t = .tryRLoaded c)
      (hc : 0 ≤ c) (he : s.readerCount = c) :
      Step t s { s with ts := Function.update s.ts t .reading,
                        readerCount := wrap32 (c + 1) }
  | tryrlock_cas_fail {s : MState n} {c : Int} (h : s.ts t = .tryRLoaded c)
      (hc : 0 ≤ c) (he : s.readerCount ≠ c) :
      Step t s { s with ts := Function.update s.ts t .tryRRetry }
  | tryrlock_reload {s : MState n} (h : s.ts t = .tryRRetry) :
      Step t s { s with ts := Function.update s.ts t (.tryRLoaded s.readerCount) }

/-- The zero value of the lock: all fields zero, every thread outside any
call — the valid unlocked state. -/
def init (n : Nat) : MState n :=
  { ts := fun _ => .idle, wlocked := false, readerCount := 0, readerWait := 0,
    readerSem := 0, writerSem := 0 }

/-- A state is reachable when some interleaving of steps of the `n` threads
produces it from the zero value. -/
def Reachable (n : Nat) (s : MState n) : Prop :=
  Relation.ReflTransGen (fun a b => ∃ t, Step t a b) (init n) s

/-- The global inductive invariant of the transition system, relating the
five struct fields to the statuses of all threads. -/
structure Inv (n : Nat) (s : MState n) : Prop where
  huniq : ∀ t t', isHolder (s.ts t) = true → isHolder (s.ts t') = true → t = t'
  hw : s.wlocked = true ↔ ∃ t, isHolder (s.ts t) = true
  hCq : (∀ t, isBiased (s.ts t) = false) →
      s.readerCount = (cnt isReading s.ts : Int) + cnt isRPark s.ts
  hq : (∀ t, isBiasedOrLoop (s.ts t) = false) →
      s.readerWait = 0 ∧ cnt isSlow s.ts = 0 ∧ s.writerSem = 0 ∧
      cnt isRPark s.ts = s.readerSem
  hnoted : ∀ t r0, s.ts t = .lockNoted r0 →
      s.readerCount = (cnt isReading s.ts : Int) + cnt isRPark s.ts
        - rwmutexMaxReaders ∧
      s.readerWait ≤ 0 ∧
      r0 = (cnt isReading s.ts : Int) + s.readerSem + cnt isSlow s.ts
        - s.readerWait ∧
      r0 ≠ 0 ∧ r0 ≤ (n : Int) - 1 ∧ s.writerSem = 0 ∧
      s.readerSem ≤ cnt isRPark s.ts
  hpark : ∀ t, s.ts t = .lockPark →
      s.readerCount = (cnt isReading s.ts : Int) + cnt isRPark s.ts
        - rwmutexMaxReaders ∧
      s.readerWait = (cnt isReading s.ts : Int) + s.readerSem
        + cnt isSlow s.ts ∧
      (s.readerWait = 0 → s.writerSem = 1) ∧
      (s.readerWait ≠ 0 → s.writerSem = 0) ∧
      s.readerSem ≤ cnt isRPark s.ts
  hwrite : ∀ t, s.ts t = .writing →
      s.readerCount = (cnt isRPark s.ts : Int) - rwmutexMaxReaders ∧
      cnt isReading s.ts = 0 ∧ s.readerSem = 0 ∧ cnt isSlow s.ts = 0 ∧
      s.readerWait = 0 ∧ s.writerSem = 0
  hloop : ∀ t k, s.ts t = .unlockLoop k →
      s.readerWait = 0 ∧ cnt isSlow s.ts = 0 ∧ s.writerSem = 0 ∧
      cnt isRPark s.ts = s.readerSem + k
  hslow : ∀ t r, s.ts t = .runlockSlow r →
      -rwmutexMaxReaders ≤ r ∧ r ≤ -2
  hSbias : 0 < cnt isSlow s.ts → ∃ t, isNotedOrPark (s.ts t) = true
  hfatal : ∀ t, s.ts t ≠ .fataled

theorem inv_init (n : Nat) : Inv n (init n) := by
  have hz : ∀ g : TStatus → Bool, g .idle = false →
      cnt g (init n).ts = 0 := by
    intro g hg
    unfold cnt init
    simp [hg]
  constructor
  case huniq => intro t t' ht _; simp [init, isHolder] at ht
  case hw =>
    constructor
    · intro h; simp [init] at h
    · rintro ⟨t, ht⟩; simp [init, isHolder] at ht
  case hCq => intro _; rw [hz isReading rfl, hz isRPark rfl]; simp [init]
  case hq =>
    intro _
    exact ⟨rfl, hz isSlow rfl, rfl, by rw [hz isRPark rfl]; simp [init]⟩
  case hnoted => intro t r0 h; simp [init] at h
  case hpark => intro t h; simp [init] at h
  case hwrite => intro t h; simp [init] at h
  case hloop => intro t k h; simp [init] at h
  case hslow => intro t r h; simp [init] at h
  case hSbias => intro h; rw [hz isSlow rfl] at h; omega
  case hfatal => intro t; simp [init]

theorem update_class_eq {n : Nat} {g : TStatus → Bool} {f : Fin n → TStatus}
    {t : Fin n} {v : TStatus} (hv : g v = g (f t)) (x : Fin n) :
    g (Function.update f t v x) = g (f x) := by
  rcases eq_or_ne x t with rfl | hne
  · rw [Function.update_same, hv]
  · rw [Function.update_noteq hne]

theorem cnt_reg {n : Nat} (f : Fin n → TStatus) :
    cnt isReg f = cnt isReading f + cnt isRPark f := by
  apply cnt_or
  intro st
  cases st <;> simp [isReading, isRPark]

theorem isBiased_elim {st : TStatus} (h : isBiased st = true) :
    (∃ r0, st = .lockNoted r0) ∨ st = .lockPark ∨ st = .writing := by
  cases st <;> simp_all [isBiased]

theorem isBiasedOrLoop_elim {st : TStatus} (h : isBiasedOrLoop st = true) :
    (∃ r0, st = .lockNoted r0) ∨ st = .lockPark ∨ st = .writing ∨
      (∃ k, st = .unlockLoop k) := by
  cases st <;> simp_all [isBiasedOrLoop]

theorem isNotedOrPark_elim {st : TStatus} (h : isNotedOrPark st = true) :
    (∃ r0, st = .lockNoted r0) ∨ st = .lockPark := by
  cases st <;> simp_all [isNotedOrPark]

theorem isHolder_elim {st : TStatus} (h : isHolder st = true) :
    st = .lockPre ∨ (∃ r0, st = .lockNoted r0) ∨ st = .lockPark ∨
      st = .writing ∨ (∃ k, st = .unlockLoop k) ∨ st = .tryPre ∨
      st = .tryBail := by
  cases st <;> simp_all [isHolder]

theorem isReg_false_of_biased {st : TStatus} (h : isBiased st = true) :
    isReg st = false := by
  cases st <;> simp_all [isBiased, isReg, isReading, isRPark]

theorem isReg_false_of_holder {st : TStatus} (h : isHolder st = true) :
    isReg st = false := by
  cases st <;> simp_all [isHolder, isReg, isReading, isRPark]

theorem isHolder_of_biased {st : TStatus} (h : isBiased st = true) :
    isHolder st = true := by
  cases st <;> simp_all [isBiased, isHolder]

theorem isHolder_of_biasedOrLoop {st : TStatus} (h : isBiasedOrLoop st = true) :
    isHolder st = true := by
  cases st <;> simp_all [isBiasedOrLoop, isHolder]

theorem isBiased_of_notedOrPark {st : TStatus} (h : isNotedOrPark st = true) :
    isBiased st = true := by
  cases st <;> simp_all [isNotedOrPark, isBiased]

theorem isBiasedOrLoop_of_biased {st : TStatus} (h : isBiased st = true) :
    isBiasedOrLoop st = true := by
  cases st <;> simp_all [isBiased, isBiasedOrLoop]

theorem eq_true_of_ne_false' {b : Bool} (h : ¬ b = false) : b = true := by
  cases b <;> simp_all

/-- Common consequences of the invariant in the presence of a biased writer. -/
theorem biased_count {n : Nat} {s : MState n} (hI : Inv n s) {t0 : Fin n}
    (hb : isBiased (s.ts t0) = true) :
    s.readerCount = (cnt isReading s.ts : Int) + cnt isRPark s.ts
      - rwmutexMaxReaders ∧ s.readerSem ≤ cnt isRPark s.ts := by
  rcases isBiased_elim hb with ⟨r0, hst⟩ | hst | hst
  · obtain ⟨h1, _, _, _, _, _, h7⟩ := hI.hnoted t0 r0 hst
    exact ⟨h1, h7⟩
  · obtain ⟨h1, _, _, _, h5⟩ := hI.hpark t0 hst
    exact ⟨h1, h5⟩
  · obtain ⟨h1, h2, h3, _⟩ := hI.hwrite t0 hst
    refine ⟨?_, ?_⟩
    · rw [h1, h2]
      push_cast
      ring
    · rw [h3]
      exact Nat.zero_le _

/-- If `readerCount` is nonnegative there is no biased writer, hence
`readerCount` counts exactly the registered readers. -/
theorem no_biased_of_nonneg {n : Nat} {s : MState n} (hn : n ≤ 1073741824)
    (hI : Inv n s) (hc : 0 ≤ s.readerCount) :
    (∀ u, isBiased (s.ts u) = false) ∧
    s.readerCount = (cnt isReading s.ts : Int) + cnt isRPark s.ts := by
  have hnb : ∀ u, isBiased (s.ts u) = false := by
    intro u
    by_contra hx
    have hb := eq_true_of_ne_false' hx
    obtain ⟨hCeq, _⟩ := biased_count hI hb
    have hreg : cnt isReg s.ts + 1 ≤ n :=
      cnt_add_one_le _ _ u (isReg_false_of_biased hb)
    rw [cnt_reg] at hreg
    rw [hCeq, rwmutexMaxReaders_eq] at hc
    omega
  exact ⟨hnb, hI.hCq hnb⟩

/-- Preservation for `RLock`'s fast path: the `readerCount.Add(1)` that
observes a nonnegative result, entering the read-side critical section. -/
theorem inv_rlock_fast {n : Nat} {s : MState n} {t : Fin n}
    (hn : n ≤ 1073741824) (hI : Inv n s) (h : s.ts t = .idle)
    (hc : 0 ≤ wrap32 (s.readerCount + 1)) :
    Inv n { s with ts := Function.update s.ts t .reading,
                   readerCount := wrap32 (s.readerCount + 1) } := by
  have hRK : cnt isReading s.ts + cnt isRPark s.ts ≤ n := by
    rw [← cnt_reg]
    exact cnt_le _ _
  -- there is no biased writer: otherwise the add would observe a negative value
  have hnb : ∀ u, isBiased (s.ts u) = false := by
    intro u
    by_contra hx
    have hb := eq_true_of_ne_false' hx
    obtain ⟨hCeq, _⟩ := biased_count hI hb
    have hut : t ≠ u := by
      intro he
      rw [← he, h] at hb
      simp [isBiased] at hb
    have hreg : cnt isReg s.ts + 2 ≤ n := by
      apply cnt_add_two_le _ _ t u hut
      · rw [h]
        rfl
      · exact isReg_false_of_biased hb
    rw [cnt_reg] at hreg
    have hw32 : wrap32 (s.readerCount + 1) = s.readerCount + 1 := by
      apply wrap32_eq_self <;> (rw [hCeq, rwmutexMaxReaders_eq]; push_cast; omega)
    rw [hw32, hCeq, rwmutexMaxReaders_eq] at hc
    push_cast at hc
    omega
  have hC := hI.hCq hnb
  have hw32 : wrap32 (s.readerCount + 1) = s.readerCount + 1 := by
    apply wrap32_eq_self <;> (rw [hC]; push_cast; omega)
  have hR' : cnt isReading (Function.update s.ts t .reading)
      = cnt isReading s.ts + 1 := by
    apply cnt_update_add
    · rw [h]
      rfl
    · rfl
  have hK' : cnt isRPark (Function.update s.ts t .reading) = cnt isRPark s.ts :=
    cnt_update_eq _ _ _ _ (by rw [h]; rfl)
  have hS' : cnt isSlow (Function.update s.ts t .reading) = cnt isSlow s.ts :=
    cnt_update_eq _ _ _ _ (by rw [h]; rfl)
  have hvH : isHolder .reading = isHolder (s.ts t) := by rw [h]; rfl
  have hvBL : isBiasedOrLoop .reading = isBiasedOrLoop (s.ts t) := by rw [h]; rfl
  have hvNP : isNotedOrPark .reading = isNotedOrPark (s.ts t) := by rw [h]; rfl
  refine ⟨?_, ?_, ?_, ?_, ?_, ?_, ?_, ?_, ?_, ?_, ?_⟩
  · -- huniq
    intro t1 t2 h1 h2
    dsimp only at h1 h2
    rw [update_class_eq hvH t1] at h1
    rw [update_class_eq hvH t2] at h2
    exact hI.huniq t1 t2 h1 h2
  · -- hw
    dsimp only
    simp only [update_class_eq hvH]
    exact hI.hw
  · -- hCq
    intro _
    dsimp only
    rw [hR', hK', hw32, hC]
    push_cast
    ring
  · -- hq
    intro hb'
    dsimp only at hb' ⊢
    simp only [update_class_eq hvBL] at hb'
    obtain ⟨e1, e2, e3, e4⟩ := hI.hq hb'
    refine ⟨e1, ?_, e3, ?_⟩
    · rw [hS']
      exact e2
    · rw [hK']
      exact e4
  · -- hnoted: no biased writer exists
    intro t' r0 h'
    dsimp only at h'
    rcases eq_or_ne t' t with rfl | hne
    · rw [Function.update_same] at h'
      simp at h'
    · rw [Function.update_noteq hne] at h'
      have := hnb t'
      rw [h'] at this
      simp [isBiased] at this
  · -- hpark
    intro t' h'
    dsimp only at h'
    rcases eq_or_ne t' t with rfl | hne
    · rw [Function.update_same] at h'
      simp at h'
    · rw [Function.update_noteq hne] at h'
      have := hnb t'
      rw [h'] at this
      simp [isBiased] at this
  · -- hwrite
    intro t' h'
    dsimp only at h'
    rcases eq_or_ne t' t with rfl | hne
    · rw [Function.update_same] at h'
      simp at h'
    · rw [Function.update_noteq hne] at h'
      have := hnb t'
      rw [h'] at this
      simp [isBiased] at this
  · -- hloop
    intro t' k h'
    dsimp only at h' ⊢
    rcases eq_or_ne t' t with rfl | hne
    · rw [Function.update_same] at h'
      simp at h'
    · rw [Function.update_noteq hne] at h'
      obtain ⟨e1, e2, e3, e4⟩ := hI.hloop t' k h'
      refine ⟨e1, ?_, e3, ?_⟩
      · rw [hS']
        exact e2
      · rw [hK']
        exact e4
  · -- hslow
    intro t' r h'
    dsimp only at h'
    rcases eq_or_ne t' t with rfl | hne
    · rw [Function.update_same] at h'
      simp at h'
    · rw [Function.update_noteq hne] at h'
      exact hI.hslow t' r h'
  · -- hSbias
    intro hpos
    dsimp only at hpos ⊢
    rw [hS'] at hpos
    obtain ⟨x, hx⟩ := hI.hSbias hpos
    refine ⟨x, ?_⟩
    rw [update_class_eq hvNP x]
    exact hx
  · -- hfatal
    intro x
    dsimp only
    rcases eq_or_ne x t with rfl | hne
    · rw [Function.update_same]
      simp
    · rw [Function.update_noteq hne]
      exact hI.hfatal x

/-- Preservation for `RLock`'s slow path: the add observes a negative value
(a writer is pending) and the reader parks on `readerSem`. -/
theorem inv_rlock_park {n : Nat} {s : MState n} {t : Fin n}
    (hn : n ≤ 1073741824) (hI : Inv n s) (h : s.ts t = .idle)
    (hc : wrap32 (s.readerCount + 1) < 0) :
    Inv n { s with ts := Function.update s.ts t .rlockPark,
                   readerCount := wrap32 (s.readerCount + 1) } := by
  have hRK : cnt isReading s.ts + cnt isRPark s.ts ≤ n := by
    rw [← cnt_reg]
    exact cnt_le _ _
  -- a biased writer must exist, otherwise the add result would be positive
  have hbex : ∃ u, isBiased (s.ts u) = true := by
    by_contra hx
    push_neg at hx
    have hnb : ∀ u, isBiased (s.ts u) = false := by
      intro u
      cases hbu : isBiased (s.ts u)
      · rfl
      · exact absurd hbu (hx u)
    have hC := hI.hCq hnb
    have hw32 : wrap32 (s.readerCount + 1) = s.readerCount + 1 := by
      apply wrap32_eq_self <;> (rw [hC]; push_cast; omega)
    rw [hw32, hC] at hc
    push_cast at hc
    omega
  obtain ⟨t0, hbt0⟩ := hbex
  obtain ⟨hCeq, hPK⟩ := biased_count hI hbt0
  have ht0t : t0 ≠ t := by
    intro he
    rw [he, h] at hbt0
    simp [isBiased] at hbt0
  have hw32 : wrap32 (s.readerCount + 1) = s.readerCount + 1 := by
    apply wrap32_eq_self <;> (rw [hCeq, rwmutexMaxReaders_eq]; push_cast; omega)
  have hR' : cnt isReading (Function.update s.ts t .rlockPark)
      = cnt isReading s.ts := cnt_update_eq _ _ _ _ (by rw [h]; rfl)
  have hK' : cnt isRPark (Function.update s.ts t .rlockPark)
      = cnt isRPark s.ts + 1 := cnt_update_add _ _ _ _ (by rw [h]; rfl) rfl
  have hS' : cnt isSlow (Function.update s.ts t .rlockPark)
      = cnt isSlow s.ts := cnt_update_eq _ _ _ _ (by rw [h]; rfl)
  have hvH : isHolder .rlockPark = isHolder (s.ts t) := by rw [h]; rfl
  have hvNP : isNotedOrPark .rlockPark = isNotedOrPark (s.ts t) := by rw [h]; rfl
  have hM := rwmutexMaxReaders_eq
  refine ⟨?_, ?_, ?_, ?_, ?_, ?_, ?_, ?_, ?_, ?_, ?_⟩
  · intro t1 t2 h1 h2
    dsimp only at h1 h2
    rw [update_class_eq hvH t1] at h1
    rw [update_class_eq hvH t2] at h2
    exact hI.huniq t1 t2 h1 h2
  · dsimp only
    simp only [update_class_eq hvH]
    exact hI.hw
  · -- hCq: the biased writer is still there
    intro hx
    have hx0 := hx t0
    dsimp only at hx0
    rw [Function.update_noteq ht0t] at hx0
    rw [hx0] at hbt0
    simp at hbt0
  · -- hq: the biased writer is still there
    intro hx
    have hx0 := hx t0
    dsimp only at hx0
    rw [Function.update_noteq ht0t] at hx0
    have h2 := isBiasedOrLoop_of_biased hbt0
    rw [hx0] at h2
    simp at h2
  · -- hnoted
    intro t' r0 h'
    dsimp only at h' ⊢
    rcases eq_or_ne t' t with rfl | hne
    · rw [Function.update_same] at h'
      simp at h'
    · rw [Function.update_noteq hne] at h'
      obtain ⟨e1, e2, e3, e4, e5, e6, e7⟩ := hI.hnoted t' r0 h'
      refine ⟨?_, e2, ?_, e4, e5, e6, ?_⟩
      · omega
      · omega
      · omega
  · -- hpark
    intro t' h'
    dsimp only at h' ⊢
    rcases eq_or_ne t' t with rfl | hne
    · rw [Function.update_same] at h'
      simp at h'
    · rw [Function.update_noteq hne] at h'
      obtain ⟨e1, e2, e3, e4, e5⟩ := hI.hpark t' h'
      refine ⟨?_, ?_, e3, e4, ?_⟩
      · omega
      · omega
      · omega
  · -- hwrite
    intro t' h'
    dsimp only at h' ⊢
    rcases eq_or_ne t' t with rfl | hne
    · rw [Function.update_same] at h'
      simp at h'
    · rw [Function.update_noteq hne] at h'
      obtain ⟨e1, e2, e3, e4, e5, e6⟩ := hI.hwrite t' h'
      refine ⟨?_, ?_, e3, ?_, e5, e6⟩
      · omega
      · omega
      · omega
  · -- hloop: a biased writer and an unlocking writer cannot coexist
    intro t' k h'
    dsimp only at h'
    rcases eq_or_ne t' t with rfl | hne
    · rw [Function.update_same] at h'
      simp at h'
    · rw [Function.update_noteq hne] at h'
      have heq := hI.huniq t' t0 (by rw [h']; rfl) (isHolder_of_biased hbt0)
      rw [← heq, h'] at hbt0
      simp [isBiased] at hbt0
  · intro t' r h'
    dsimp only at h'
    rcases eq_or_ne t' t with rfl | hne
    · rw [Function.update_same] at h'
      simp at h'
    · rw [Function.update_noteq hne] at h'
      exact hI.hslow t' r h'
  · intro hpos
    dsimp only at hpos ⊢
    rw [hS'] at hpos
    obtain ⟨x, hx⟩ := hI.hSbias hpos
    refine ⟨x, ?_⟩
    rw [update_class_eq hvNP x]
    exact hx
  · intro x
    dsimp only
    rcases eq_or_ne x t with rfl | hne
    · rw [Function.update_same]
      simp
    · rw [Function.update_noteq hne]
      exact hI.hfatal x

/-- Preservation for a parked reader resuming from `readerSem`: it consumes
one permit and enters the read-side critical section. -/
theorem inv_rlock_wake {n : Nat} {s : MState n} {t : Fin n}
    (hI : Inv n s) (h : s.ts t = .rlockPark) (hp : 0 < s.readerSem) :
    Inv n { s with ts := Function.update s.ts t .reading,
                   readerSem := s.readerSem - 1 } := by
  have hKpos : 1 ≤ cnt isRPark s.ts := cnt_pos _ _ t (by rw [h]; rfl)
  have hR' : cnt isReading (Function.update s.ts t .reading)
      = cnt isReading s.ts + 1 := cnt_update_add _ _ _ _ (by rw [h]; rfl) rfl
  have hK' : cnt isRPark s.ts
      = cnt isRPark (Function.update s.ts t .reading) + 1 :=
    cnt_update_sub _ _ _ _ (by rw [h]; rfl) rfl
  have hS' : cnt isSlow (Function.update s.ts t .reading)
      = cnt isSlow s.ts := cnt_update_eq _ _ _ _ (by rw [h]; rfl)
  have hvH : isHolder .reading = isHolder (s.ts t) := by rw [h]; rfl
  have hvB : isBiased .reading = isBiased (s.ts t) := by rw [h]; rfl
  have hvBL : isBiasedOrLoop .reading = isBiasedOrLoop (s.ts t) := by rw [h]; rfl
  have hvNP : isNotedOrPark .reading = isNotedOrPark (s.ts t) := by rw [h]; rfl
  refine ⟨?_, ?_, ?_, ?_, ?_, ?_, ?_, ?_, ?_, ?_, ?_⟩
  · intro t1 t2 h1 h2
    dsimp only at h1 h2
    rw [update_class_eq hvH t1] at h1
    rw [update_class_eq hvH t2] at h2
    exact hI.huniq t1 t2 h1 h2
  · dsimp only
    simp only [update_class_eq hvH]
    exact hI.hw
  · intro hx
    dsimp only at hx ⊢
    simp only [update_class_eq hvB] at hx
    have hC := hI.hCq hx
    rw [hR', hC]
    push_cast
    omega
  · intro hx
    dsimp only at hx ⊢
    simp only [update_class_eq hvBL] at hx
    obtain ⟨e1, e2, e3, e4⟩ := hI.hq hx
    refine ⟨e1, ?_, e3, ?_⟩
    · rw [hS']
      exact e2
    · omega
  · intro t' r0 h'
    dsimp only at h' ⊢
    rcases eq_or_ne t' t with rfl | hne
    · rw [Function.update_same] at h'
      simp at h'
    · rw [Function.update_noteq hne] at h'
      obtain ⟨e1, e2, e3, e4, e5, e6, e7⟩ := hI.hnoted t' r0 h'
      refine ⟨?_, e2, ?_, e4, e5, e6, ?_⟩
      · rw [hR', e1]
        push_cast
        omega
      · rw [hR', hS', e3]
        push_cast
        omega
      · omega
  · intro t' h'
    dsimp only at h' ⊢
    rcases eq_or_ne t' t with rfl | hne
    · rw [Function.update_same] at h'
      simp at h'
    · rw [Function.update_noteq hne] at h'
      obtain ⟨e1, e2, e3, e4, e5⟩ := hI.hpark t' h'
      refine ⟨?_, ?_, e3, e4, ?_⟩
      · rw [hR', e1]
        push_cast
        omega
      · rw [hR', hS', e2]
        push_cast
        omega
      · omega
  · intro t' h'
    dsimp only at h'
    rcases eq_or_ne t' t with rfl | hne
    · rw [Function.update_same] at h'
      simp at h'
    · rw [Function.update_noteq hne] at h'
      obtain ⟨_, _, e3, _⟩ := hI.hwrite t' h'
      omega
  · intro t' k h'
    dsimp only at h' ⊢
    rcases eq_or_ne t' t with rfl | hne
    · rw [Function.update_same] at h'
      simp at h'
    · rw [Function.update_noteq hne] at h'
      obtain ⟨e1, e2, e3, e4⟩ := hI.hloop t' k h'
      refine ⟨e1, ?_, e3, ?_⟩
      · rw [hS']
        exact e2
      · omega
  · intro t' r h'
    dsimp only at h'
    rcases eq_or_ne t' t with rfl | hne
    · rw [Function.update_same] at h'
      simp at h'
    · rw [Function.update_noteq hne] at h'
      exact hI.hslow t' r h'
  · intro hpos
    dsimp only at hpos ⊢
    rw [hS'] at hpos
    obtain ⟨x, hx⟩ := hI.hSbias hpos
    refine ⟨x, ?_⟩
    rw [update_class_eq hvNP x]
    exact hx
  · intro x
    dsimp only
    rcases eq_or_ne x t with rfl | hne
    · rw [Function.update_same]
      simp
    · rw [Function.update_noteq hne]
      exact hI.hfatal x

/-- Preservation for `RUnlock`'s fast path: `readerCount.Add(-1)` observes a
nonnegative result, so no writer is involved. -/
theorem inv_runlock_fast {n : Nat} {s : MState n} {t : Fin n}
    (hn : n ≤ 1073741824) (hI : Inv n s) (h : s.ts t = .reading)
    (hc : 0 ≤ wrap32 (s.readerCount - 1)) :
    Inv n { s with ts := Function.update s.ts t .idle,
                   readerCount := wrap32 (s.readerCount - 1) } := by
  have hRK : cnt isReading s.ts + cnt isRPark s.ts ≤ n := by
    rw [← cnt_reg]
    exact cnt_le _ _
  have hRpos : 1 ≤ cnt isReading s.ts := cnt_pos _ _ t (by rw [h]; rfl)
  have hnb : ∀ u, isBiased (s.ts u) = false := by
    intro u
    by_contra hx
    have hb := eq_true_of_ne_false' hx
    obtain ⟨hCeq, _⟩ := biased_count hI hb
    have hreg : cnt isReg s.ts + 1 ≤ n :=
      cnt_add_one_le _ _ u (isReg_false_of_biased hb)
    rw [cnt_reg] at hreg
    have hw32 : wrap32 (s.readerCount - 1) = s.readerCount - 1 := by
      apply wrap32_eq_self <;> (rw [hCeq, rwmutexMaxReaders_eq]; push_cast; omega)
    rw [hw32, hCeq, rwmutexMaxReaders_eq] at hc
    push_cast at hc
    omega
  have hC := hI.hCq hnb
  have hw32 : wrap32 (s.readerCount - 1) = s.readerCount - 1 := by
    apply wrap32_eq_self <;> (rw [hC]; push_cast; omega)
  have hR' : cnt isReading s.ts
      = cnt isReading (Function.update s.ts t .idle) + 1 :=
    cnt_update_sub _ _ _ _ (by rw [h]; rfl) rfl
  have hK' : cnt isRPark (Function.update s.ts t .idle) = cnt isRPark s.ts :=
    cnt_update_eq _ _ _ _ (by rw [h]; rfl)
  have hS' : cnt isSlow (Function.update s.ts t .idle) = cnt isSlow s.ts :=
    cnt_update_eq _ _ _ _ (by rw [h]; rfl)
  have hvH : isHolder .idle = isHolder (s.ts t) := by rw [h]; rfl
  have hvBL : isBiasedOrLoop .idle = isBiasedOrLoop (s.ts t) := by rw [h]; rfl
  have hvNP : isNotedOrPark .idle = isNotedOrPark (s.ts t) := by rw [h]; rfl
  refine ⟨?_, ?_, ?_, ?_, ?_, ?_, ?_, ?_, ?_, ?_, ?_⟩
  · intro t1 t2 h1 h2
    dsimp only at h1 h2
    rw [update_class_eq hvH t1] at h1
    rw [update_class_eq hvH t2] at h2
    exact hI.huniq t1 t2 h1 h2
  · dsimp only
    simp only [update_class_eq hvH]
    exact hI.hw
  · intro _
    dsimp only
    rw [hK', hw32, hC]
    push_cast
    omega
  · intro hx
    dsimp only at hx ⊢
    simp only [update_class_eq hvBL] at hx
    obtain ⟨e1, e2, e3, e4⟩ := hI.hq hx
    refine ⟨e1, ?_, e3, ?_⟩
    · rw [hS']
      exact e2
    · rw [hK']
      exact e4
  · intro t' r0 h'
    dsimp only at h'
    rcases eq_or_ne t' t with rfl | hne
    · rw [Function.update_same] at h'
      simp at h'
    · rw [Function.update_noteq hne] at h'
      have := hnb t'
      rw [h'] at this
      simp [isBiased] at this
  · intro t' h'
    dsimp only at h'
    rcases eq_or_ne t' t with rfl | hne
    · rw [Function.update_same] at h'
      simp at h'
    · rw [Function.update_noteq hne] at h'
      have := hnb t'
      rw [h'] at this
      simp [isBiased] at this
  · intro t' h'
    dsimp only at h'
    rcases eq_or_ne t' t with rfl | hne
    · rw [Function.update_same] at h'
      simp at h'
    · rw [Function.update_noteq hne] at h'
      have := hnb t'
      rw [h'] at this
      simp [isBiased] at this
  · intro t' k h'
    dsimp only at h' ⊢
    rcases eq_or_ne t' t with rfl | hne
    · rw [Function.update_same] at h'
      simp at h'
    · rw [Function.update_noteq hne] at h'
      obtain ⟨e1, e2, e3, e4⟩ := hI.hloop t' k h'
      refine ⟨e1, ?_, e3, ?_⟩
      · rw [hS']
        exact e2
      · rw [hK']
        exact e4
  · intro t' r h'
    dsimp only at h'
    rcases eq_or_ne t' t with rfl | hne
    · rw [Function.update_same] at h'
      simp at h'
    · rw [Function.update_noteq hne] at h'
      exact hI.hslow t' r h'
  · intro hpos
    dsimp only at hpos ⊢
    rw [hS'] at hpos
    obtain ⟨x, hx⟩ := hI.hSbias hpos
    refine ⟨x, ?_⟩
    rw [update_class_eq hvNP x]
    exact hx
  · intro x
    dsimp only
    rcases eq_or_ne x t with rfl | hne
    · rw [Function.update_same]
      simp
    · rw [Function.update_noteq hne]
      exact hI.hfatal x

/-- Preservation for `RUnlock`'s slow-path entry: the decrement observes a
negative result (a writer is pending) and the thread enters `rUnlockSlow`
carrying that result. -/
theorem inv_runlock_slow_enter {n : Nat} {s : MState n} {t : Fin n}
    (hn : n ≤ 1073741824) (hI : Inv n s) (h : s.ts t = .reading)
    (hc : wrap32 (s.readerCount - 1) < 0) :
    Inv n { s with ts := Function.update s.ts t
                     (.runlockSlow (wrap32 (s.readerCount - 1))),
                   readerCount := wrap32 (s.readerCount - 1) } := by
  have hRpos : 1 ≤ cnt isReading s.ts := cnt_pos _ _ t (by rw [h]; rfl)
  have hbex : ∃ u, isBiased (s.ts u) = true := by
    by_contra hx
    push_neg at hx
    have hnb : ∀ u, isBiased (s.ts u) = false := by
      intro u
      cases hbu : isBiased (s.ts u)
      · rfl
      · exact absurd hbu (hx u)
    have hC := hI.hCq hnb
    have hRK : cnt isReading s.ts + cnt isRPark s.ts ≤ n := by
      rw [← cnt_reg]
      exact cnt_le _ _
    have hw32 : wrap32 (s.readerCount - 1) = s.readerCount - 1 := by
      apply wrap32_eq_self <;> (rw [hC]; push_cast; omega)
    rw [hw32, hC] at hc
    push_cast at hc
    omega
  obtain ⟨t0, hbt0⟩ := hbex
  obtain ⟨hCeq, hPK⟩ := biased_count hI hbt0
  have ht0t : t0 ≠ t := by
    intro he
    rw [he, h] at hbt0
    simp [isBiased] at hbt0
  have hreg : cnt isReg s.ts + 1 ≤ n :=
    cnt_add_one_le _ _ t0 (isReg_false_of_biased hbt0)
  rw [cnt_reg] at hreg
  have hw32 : wrap32 (s.readerCount - 1) = s.readerCount - 1 := by
    apply wrap32_eq_self <;> (rw [hCeq, rwmutexMaxReaders_eq]; push_cast; omega)
  -- the writer holding the bias is still draining readers, hence not writing
  have hnotwriting : isNotedOrPark (s.ts t0) = true := by
    rcases isBiased_elim hbt0 with ⟨r0, hst⟩ | hst | hst
    · rw [hst]
      rfl
    · rw [hst]
      rfl
    · obtain ⟨_, e2, _⟩ := hI.hwrite t0 hst
      omega
  have hR' : cnt isReading s.ts
      = cnt isReading (Function.update s.ts t
          (.runlockSlow (wrap32 (s.readerCount - 1)))) + 1 :=
    cnt_update_sub _ _ _ _ (by rw [h]; rfl) rfl
  have hK' : cnt isRPark (Function.update s.ts t
      (.runlockSlow (wrap32 (s.readerCount - 1)))) = cnt isRPark s.ts :=
    cnt_update_eq _ _ _ _ (by rw [h]; rfl)
  have hS' : cnt isSlow (Function.update s.ts t
      (.runlockSlow (wrap32 (s.readerCount - 1)))) = cnt isSlow s.ts + 1 :=
    cnt_update_add _ _ _ _ (by rw [h]; rfl) rfl
  have hvH : isHolder (.runlockSlow (wrap32 (s.readerCount - 1)))
      = isHolder (s.ts t) := by rw [h]; rfl
  have hvNP : isNotedOrPark (.runlockSlow (wrap32 (s.readerCount - 1)))
      = isNotedOrPark (s.ts t) := by rw [h]; rfl
  have hM := rwmutexMaxReaders_eq
  refine ⟨?_, ?_, ?_, ?_, ?_, ?_, ?_, ?_, ?_, ?_, ?_⟩
  · intro t1 t2 h1 h2
    dsimp only at h1 h2
    rw [update_class_eq hvH t1] at h1
    rw [update_class_eq hvH t2] at h2
    exact hI.huniq t1 t2 h1 h2
  · dsimp only
    simp only [update_class_eq hvH]
    exact hI.hw
  · intro hx
    have hx0 := hx t0
    dsimp only at hx0
    rw [Function.update_noteq ht0t] at hx0
    rw [hx0] at hbt0
    simp at hbt0
  · intro hx
    have hx0 := hx t0
    dsimp only at hx0
    rw [Function.update_noteq ht0t] at hx0
    have h2 := isBiasedOrLoop_of_biased hbt0
    rw [hx0] at h2
    simp at h2
  · intro t' r0 h'
    dsimp only at h' ⊢
    rcases eq_or_ne t' t with rfl | hne
    · rw [Function.update_same] at h'
      simp at h'
    · rw [Function.update_noteq hne] at h'
      obtain ⟨e1, e2, e3, e4, e5, e6, e7⟩ := hI.hnoted t' r0 h'
      refine ⟨?_, e2, ?_, e4, e5, e6, ?_⟩
      · omega
      · omega
      · omega
  · intro t' h'
    dsimp only at h' ⊢
    rcases eq_or_ne t' t with rfl | hne
    · rw [Function.update_same] at h'
      simp at h'
    · rw [Function.update_noteq hne] at h'
      obtain ⟨e1, e2, e3, e4, e5⟩ := hI.hpark t' h'
      refine ⟨?_, ?_, e3, e4, ?_⟩
      · omega
      · omega
      · omega
  · intro t' h'
    dsimp only at h'
    rcases eq_or_ne t' t with rfl | hne
    · rw [Function.update_same] at h'
      simp at h'
    · rw [Function.update_noteq hne] at h'
      obtain ⟨_, e2, _⟩ := hI.hwrite t' h'
      omega
  · intro t' k h'
    dsimp only at h'
    rcases eq_or_ne t' t with rfl | hne
    · rw [Function.update_same] at h'
      simp at h'
    · rw [Function.update_noteq hne] at h'
      have heq := hI.huniq t' t0 (by rw [h']; rfl) (isHolder_of_biased hbt0)
      rw [← heq, h'] at hbt0
      simp [isBiased] at hbt0
  · intro t' r h'
    dsimp only at h'
    rcases eq_or_ne t' t with rfl | hne
    · rw [Function.update_same] at h'
      injection h' with hr
      subst hr
      omega
    · rw [Function.update_noteq hne] at h'
      exact hI.hslow t' r h'
  · intro _
    dsimp only
    refine ⟨t0, ?_⟩
    rw [update_class_eq hvNP t0]
    exact hnotwriting
  · intro x
    dsimp only
    rcases eq_or_ne x t with rfl | hne
    · rw [Function.update_same]
      simp
    · rw [Function.update_noteq hne]
      exact hI.hfatal x

theorem reg_slow_le {n : Nat} (f : Fin n → TStatus) :
    cnt isReading f + cnt isRPark f + cnt isSlow f ≤ n := by
  have h1 : cnt (fun st => isReg st || isSlow st) f
      = cnt isReg f + cnt isSlow f := by
    apply cnt_or
    intro st
    cases st <;> simp [isReg, isReading, isRPark, isSlow]
  have h2 := cnt_reg f
  have h3 := cnt_le (fun st => isReg st || isSlow st) f
  omega

/-- Preservation for `rUnlockSlow`'s fatal branch: unreachable, since the
stored decrement result of a legitimate reader never satisfies the check. -/
theorem inv_runlock_fatal {n : Nat} {s : MState n} {t : Fin n} {r : Int}
    (hI : Inv n s) (h : s.ts t = .runlockSlow r)
    (hf : r + 1 = 0 ∨ r + 1 = -rwmutexMaxReaders) :
    Inv n { s with ts := Function.update s.ts t .fataled } := by
  exfalso
  obtain ⟨e1, e2⟩ := hI.hslow t r h
  have hM := rwmutexMaxReaders_eq
  rcases hf with hf | hf <;> omega

/-- Preservation for `rUnlockSlow`'s `readerWait.Add(-1)` observing a nonzero
result: more readers must drain before the writer can be released. -/
theorem inv_runlock_wait_dec {n : Nat} {s : MState n} {t : Fin n} {r : Int}
    (hn : n ≤ 1073741824) (hI : Inv n s) (h : s.ts t = .runlockSlow r)
    (hz : wrap32 (s.readerWait - 1) ≠ 0) :
    Inv n { s with ts := Function.update s.ts t .idle,
                   readerWait := wrap32 (s.readerWait - 1) } := by
  have hM := rwmutexMaxReaders_eq
  have hSpos : 1 ≤ cnt isSlow s.ts := cnt_pos _ _ t (by rw [h]; rfl)
  obtain ⟨t0, hNP0⟩ := hI.hSbias hSpos
  have ht0t : t0 ≠ t := by
    intro he
    rw [he, h] at hNP0
    simp [isNotedOrPark] at hNP0
  have hRKS := reg_slow_le s.ts
  have hw32 : wrap32 (s.readerWait - 1) = s.readerWait - 1 := by
    rcases isNotedOrPark_elim hNP0 with ⟨r0, hst⟩ | hst
    · obtain ⟨_, e2, e3, _, e5, _⟩ := hI.hnoted t0 r0 hst
      apply wrap32_eq_self <;> omega
    · obtain ⟨_, e2, _, _, e5⟩ := hI.hpark t0 hst
      have hKle := cnt_le isRPark s.ts
      apply wrap32_eq_self <;> omega
  have hR' : cnt isReading (Function.update s.ts t .idle)
      = cnt isReading s.ts := cnt_update_eq _ _ _ _ (by rw [h]; rfl)
  have hK' : cnt isRPark (Function.update s.ts t .idle)
      = cnt isRPark s.ts := cnt_update_eq _ _ _ _ (by rw [h]; rfl)
  have hS' : cnt isSlow s.ts
      = cnt isSlow (Function.update s.ts t .idle) + 1 :=
    cnt_update_sub _ _ _ _ (by rw [h]; rfl) rfl
  have hvH : isHolder .idle = isHolder (s.ts t) := by rw [h]; rfl
  have hvNP : isNotedOrPark .idle = isNotedOrPark (s.ts t) := by rw [h]; rfl
  refine ⟨?_, ?_, ?_, ?_, ?_, ?_, ?_, ?_, ?_, ?_, ?_⟩
  · intro t1 t2 h1 h2
    dsimp only at h1 h2
    rw [update_class_eq hvH t1] at h1
    rw [update_class_eq hvH t2] at h2
    exact hI.huniq t1 t2 h1 h2
  · dsimp only
    simp only [update_class_eq hvH]
    exact hI.hw
  · intro hx
    have hx0 := hx t0
    dsimp only at hx0
    rw [Function.update_noteq ht0t] at hx0
    have h2 := isBiased_of_notedOrPark hNP0
    rw [hx0] at h2
    simp at h2
  · intro hx
    have hx0 := hx t0
    dsimp only at hx0
    rw [Function.update_noteq ht0t] at hx0
    have h2 := isBiasedOrLoop_of_biased (isBiased_of_notedOrPark hNP0)
    rw [hx0] at h2
    simp at h2
  · intro t' r0 h'
    dsimp only at h' ⊢
    rcases eq_or_ne t' t with rfl | hne
    · rw [Function.update_same] at h'
      simp at h'
    · rw [Function.update_noteq hne] at h'
      obtain ⟨e1, e2, e3, e4, e5, e6, e7⟩ := hI.hnoted t' r0 h'
      refine ⟨?_, ?_, ?_, e4, e5, e6, ?_⟩
      · omega
      · omega
      · omega
      · omega
  · intro t' h'
    dsimp only at h' ⊢
    rcases eq_or_ne t' t with rfl | hne
    · rw [Function.update_same] at h'
      simp at h'
    · rw [Function.update_noteq hne] at h'
      obtain ⟨e1, e2, e3, e4, e5⟩ := hI.hpark t' h'
      refine ⟨?_, ?_, ?_, ?_, ?_⟩
      · omega
      · omega
      · intro h0
        exact absurd h0 hz
      · intro _
        apply e4
        omega
      · omega
  · intro t' h'
    dsimp only at h'
    rcases eq_or_ne t' t with rfl | hne
    · rw [Function.update_same] at h'
      simp at h'
    · rw [Function.update_noteq hne] at h'
      obtain ⟨_, _, _, e4, _⟩ := hI.hwrite t' h'
      omega
  · intro t' k h'
    dsimp only at h'
    rcases eq_or_ne t' t with rfl | hne
    · rw [Function.update_same] at h'
      simp at h'
    · rw [Function.update_noteq hne] at h'
      obtain ⟨_, e2, _⟩ := hI.hloop t' k h'
      omega
  · intro t' r' h'
    dsimp only at h'
    rcases eq_or_ne t' t with rfl | hne
    · rw [Function.update_same] at h'
      simp at h'
    · rw [Function.update_noteq hne] at h'
      exact hI.hslow t' r' h'
  · intro hpos
    dsimp only at hpos ⊢
    refine ⟨t0, ?_⟩
    rw [update_class_eq hvNP t0]
    exact hNP0
  · intro x
    dsimp only
    rcases eq_or_ne x t with rfl | hne
    · rw [Function.update_same]
      simp
    · rw [Function.update_noteq hne]
      exact hI.hfatal x

/-- Preservation for `rUnlockSlow`'s `readerWait.Add(-1)` reaching zero: the
last draining reader releases one permit on `writerSem`. -/
theorem inv_runlock_wait_zero {n : Nat} {s : MState n} {t : Fin n} {r : Int}
    (hn : n ≤ 1073741824) (hI : Inv n s) (h : s.ts t = .runlockSlow r)
    (hz : wrap32 (s.readerWait - 1) = 0) :
    Inv n { s with ts := Function.update s.ts t .idle,
                   readerWait := wrap32 (s.readerWait - 1),
                   writerSem := s.writerSem + 1 } := by
  have hM := rwmutexMaxReaders_eq
  have hSpos : 1 ≤ cnt isSlow s.ts := cnt_pos _ _ t (by rw [h]; rfl)
  obtain ⟨t0, hNP0⟩ := hI.hSbias hSpos
  have ht0t : t0 ≠ t := by
    intro he
    rw [he, h] at hNP0
    simp [isNotedOrPark] at hNP0
  have hRKS := reg_slow_le s.ts
  have hKle := cnt_le isRPark s.ts
  -- the pending writer must already have parked: in the `lockNoted` phase
  -- `readerWait` is nonpositive, so the decrement cannot reach zero
  have hst0 : s.ts t0 = .lockPark := by
    rcases isNotedOrPark_elim hNP0 with ⟨r0, hst⟩ | hst
    · exfalso
      obtain ⟨_, e2, e3, _, e5, _⟩ := hI.hnoted t0 r0 hst
      have hw32 : wrap32 (s.readerWait - 1) = s.readerWait - 1 := by
        apply wrap32_eq_self <;> omega
      omega
    · exact hst
  obtain ⟨e1, e2, e3, e4, e5⟩ := hI.hpark t0 hst0
  have hw32 : wrap32 (s.readerWait - 1) = s.readerWait - 1 := by
    apply wrap32_eq_self <;> omega
  -- exactly one reader remained: `readerWait = 1`, so nothing else is active
  have hW1 : s.readerWait = 1 := by omega
  have hQ0 : s.writerSem = 0 := e4 (by omega)
  have hR0 : cnt isReading s.ts = 0 := by omega
  have hP0 : s.readerSem = 0 := by omega
  have hS1 : cnt isSlow s.ts = 1 := by omega
  have hR' : cnt isReading (Function.update s.ts t .idle)
      = cnt isReading s.ts := cnt_update_eq _ _ _ _ (by rw [h]; rfl)
  have hK' : cnt isRPark (Function.update s.ts t .idle)
      = cnt isRPark s.ts := cnt_update_eq _ _ _ _ (by rw [h]; rfl)
  have hS' : cnt isSlow s.ts
      = cnt isSlow (Function.update s.ts t .idle) + 1 :=
    cnt_update_sub _ _ _ _ (by rw [h]; rfl) rfl
  have hvH : isHolder .idle = isHolder (s.ts t) := by rw [h]; rfl
  refine ⟨?_, ?_, ?_, ?_, ?_, ?_, ?_, ?_, ?_, ?_, ?_⟩
  · intro t1 t2 h1 h2
    dsimp only at h1 h2
    rw [update_class_eq hvH t1] at h1
    rw [update_class_eq hvH t2] at h2
    exact hI.huniq t1 t2 h1 h2
  · dsimp only
    simp only [update_class_eq hvH]
    exact hI.hw
  · intro hx
    have hx0 := hx t0
    dsimp only at hx0
    rw [Function.update_noteq ht0t] at hx0
    have h2 := isBiased_of_notedOrPark hNP0
    rw [hx0] at h2
    simp at h2
  · intro hx
    have hx0 := hx t0
    dsimp only at hx0
    rw [Function.update_noteq ht0t] at hx0
    have h2 := isBiasedOrLoop_of_biased (isBiased_of_notedOrPark hNP0)
    rw [hx0] at h2
    simp at h2
  · intro t' r0 h'
    dsimp only at h'
    rcases eq_or_ne t' t with rfl | hne
    · rw [Function.update_same] at h'
      simp at h'
    · rw [Function.update_noteq hne] at h'
      obtain ⟨_, e2', _⟩ := hI.hnoted t' r0 h'
      omega
  · intro t' h'
    dsimp only at h' ⊢
    rcases eq_or_ne t' t with rfl | hne
    · rw [Function.update_same] at h'
      simp at h'
    · rw [Function.update_noteq hne] at h'
      obtain ⟨f1, f2, f3, f4, f5⟩ := hI.hpark t' h'
      refine ⟨?_, ?_, ?_, ?_, ?_⟩
      · omega
      · omega
      · intro _
        omega
      · intro hcontra
        exact absurd hz hcontra
      · omega
  · intro t' h'
    dsimp only at h'
    rcases eq_or_ne t' t with rfl | hne
    · rw [Function.update_same] at h'
      simp at h'
    · rw [Function.update_noteq hne] at h'
      obtain ⟨_, _, _, e4', _⟩ := hI.hwrite t' h'
      omega
  · intro t' k h'
    dsimp only at h'
    rcases eq_or_ne t' t with rfl | hne
    · rw [Function.update_same] at h'
      simp at h'
    · rw [Function.update_noteq hne] at h'
      obtain ⟨_, e2', _⟩ := hI.hloop t' k h'
      omega
  · intro t' r' h'
    dsimp only at h'
    rcases eq_or_ne t' t with rfl | hne
    · rw [Function.update_same] at h'
      simp at h'
    · rw [Function.update_noteq hne] at h'
      exact hI.hslow t' r' h'
  · intro hpos
    dsimp only at hpos
    exact absurd hpos (by omega)
  · intro x
    dsimp only
    rcases eq_or_ne x t with rfl | hne
    · rw [Function.update_same]
      simp
    · rw [Function.update_noteq hne]
      exact hI.hfatal x

/-- Preservation for `Lock`'s acquisition of the inner mutex `w`. -/
theorem inv_lock_mutex {n : Nat} {s : MState n} {t : Fin n}
    (hI : Inv n s) (h : s.ts t = .idle) (hw : s.wlocked = false) :
    Inv n { s with ts := Function.update s.ts t .lockPre, wlocked := true } := by
  have hnh : ∀ u, isHolder (s.ts u) = false := by
    intro u
    cases hbu : isHolder (s.ts u)
    · rfl
    · exact absurd (hI.hw.mpr ⟨u, hbu⟩) (by rw [hw]; simp)
  have hnb : ∀ u, isBiased (s.ts u) = false := by
    intro u
    cases hbu : isBiased (s.ts u)
    · rfl
    · have := isHolder_of_biased hbu
      rw [hnh u] at this
      simp at this
  have hnbl : ∀ u, isBiasedOrLoop (s.ts u) = false := by
    intro u
    cases hbu : isBiasedOrLoop (s.ts u)
    · rfl
    · have := isHolder_of_biasedOrLoop hbu
      rw [hnh u] at this
      simp at this
  have hC := hI.hCq hnb
  obtain ⟨e1, e2, e3, e4⟩ := hI.hq hnbl
  have hR' : cnt isReading (Function.update s.ts t .lockPre)
      = cnt isReading s.ts := cnt_update_eq _ _ _ _ (by rw [h]; rfl)
  have hK' : cnt isRPark (Function.update s.ts t .lockPre)
      = cnt isRPark s.ts := cnt_update_eq _ _ _ _ (by rw [h]; rfl)
  have hS' : cnt isSlow (Function.update s.ts t .lockPre)
      = cnt isSlow s.ts := cnt_update_eq _ _ _ _ (by rw [h]; rfl)
  have hvNP : isNotedOrPark .lockPre = isNotedOrPark (s.ts t) := by rw [h]; rfl
  refine ⟨?_, ?_, ?_, ?_, ?_, ?_, ?_, ?_, ?_, ?_, ?_⟩
  · intro t1 t2 h1 h2
    dsimp only at h1 h2
    by_cases h1t : t1 = t
    · by_cases h2t : t2 = t
      · rw [h1t, h2t]
      · rw [Function.update_noteq h2t] at h2
        rw [hnh t2] at h2
        simp at h2
    · rw [Function.update_noteq h1t] at h1
      rw [hnh t1] at h1
      simp at h1
  · dsimp only
    constructor
    · intro _
      refine ⟨t, ?_⟩
      rw [Function.update_same]
      rfl
    · intro _
      rfl
  · intro _
    dsimp only
    rw [hR', hK']
    exact hC
  · intro _
    dsimp only
    rw [hS', hK']
    exact ⟨e1, e2, e3, e4⟩
  · intro t' r0 h'
    dsimp only at h'
    rcases eq_or_ne t' t with rfl | hne
    · rw [Function.update_same] at h'
      simp at h'
    · rw [Function.update_noteq hne] at h'
      have := hnh t'
      rw [h'] at this
      simp [isHolder] at this
  · intro t' h'
    dsimp only at h'
    rcases eq_or_ne t' t with rfl | hne
    · rw [Function.update_same] at h'
      simp at h'
    · rw [Function.update_noteq hne] at h'
      have := hnh t'
      rw [h'] at this
      simp [isHolder] at this
  · intro t' h'
    dsimp only at h'
    rcases eq_or_ne t' t with rfl | hne
    · rw [Function.update_same] at h'
      simp at h'
    · rw [Function.update_noteq hne] at h'
      have := hnh t'
      rw [h'] at this
      simp [isHolder] at this
  · intro t' k h'
    dsimp only at h'
    rcases eq_or_ne t' t with rfl | hne
    · rw [Function.update_same] at h'
      simp at h'
    · rw [Function.update_noteq hne] at h'
      have := hnh t'
      rw [h'] at this
      simp [isHolder] at this
  · intro t' r' h'
    dsimp only at h'
    rcases eq_or_ne t' t with rfl | hne
    · rw [Function.update_same] at h'
      simp at h'
    · rw [Function.update_noteq hne] at h'
      exact hI.hslow t' r' h'
  · intro hpos
    dsimp only at hpos
    rw [hS'] at hpos
    obtain ⟨x, hx⟩ := hI.hSbias hpos
    refine ⟨x, ?_⟩
    dsimp only
    rw [update_class_eq hvNP x]
    exact hx
  · intro x
    dsimp only
    rcases eq_or_ne x t with rfl | hne
    · rw [Function.update_same]
      simp
    · rw [Function.update_noteq hne]
      exact hI.hfatal x

/-- Preservation for `Lock`'s bias subtraction when no reader is registered:
the recovered count is zero and the writer proceeds immediately. -/
theorem inv_lock_bias_zero {n : Nat} {s : MState n} {t : Fin n}
    (hn : n ≤ 1073741824) (hI : Inv n s) (h : s.ts t = .lockPre)
    (hr : wrap32 (s.readerCount - rwmutexMaxReaders) + rwmutexMaxReaders = 0) :
    Inv n { s with ts := Function.update s.ts t .writing,
                   readerCount := wrap32 (s.readerCount - rwmutexMaxReaders) } := by
  have hM := rwmutexMaxReaders_eq
  -- `t` holds the mutex and is not past the bias, so no other writer is biased
  have hnb : ∀ u, isBiased (s.ts u) = false := by
    intro u
    cases hbu : isBiased (s.ts u)
    · rfl
    · exfalso
      have heq := hI.huniq u t (isHolder_of_biased hbu) (by rw [h]; rfl)
      rw [heq, h] at hbu
      simp [isBiased] at hbu
  have hnbl : ∀ u, isBiasedOrLoop (s.ts u) = false := by
    intro u
    cases hbu : isBiasedOrLoop (s.ts u)
    · rfl
    · exfalso
      have heq := hI.huniq u t (isHolder_of_biasedOrLoop hbu) (by rw [h]; rfl)
      rw [heq, h] at hbu
      simp [isBiasedOrLoop] at hbu
  have hC := hI.hCq hnb
  obtain ⟨e1, e2, e3, e4⟩ := hI.hq hnbl
  have hreg : cnt isReg s.ts + 1 ≤ n :=
    cnt_add_one_le _ _ t (by rw [h]; rfl)
  rw [cnt_reg] at hreg
  have hw32 : wrap32 (s.readerCount - rwmutexMaxReaders)
      = s.readerCount - rwmutexMaxReaders := by
    apply wrap32_eq_self <;> omega
  have hR0 : cnt isReading s.ts = 0 := by omega
  have hK0 : cnt isRPark s.ts = 0 := by omega
  have hR' : cnt isReading (Function.update s.ts t .writing)
      = cnt isReading s.ts := cnt_update_eq _ _ _ _ (by rw [h]; rfl)
  have hK' : cnt isRPark (Function.update s.ts t .writing)
      = cnt isRPark s.ts := cnt_update_eq _ _ _ _ (by rw [h]; rfl)
  have hS' : cnt isSlow (Function.update s.ts t .writing)
      = cnt isSlow s.ts := cnt_update_eq _ _ _ _ (by rw [h]; rfl)
  have hvH : isHolder .writing = isHolder (s.ts t) := by rw [h]; rfl
  refine ⟨?_, ?_, ?_, ?_, ?_, ?_, ?_, ?_, ?_, ?_, ?_⟩
  · intro t1 t2 h1 h2
    dsimp only at h1 h2
    rw [update_class_eq hvH t1] at h1
    rw [update_class_eq hvH t2] at h2
    exact hI.huniq t1 t2 h1 h2
  · dsimp only
    simp only [update_class_eq hvH]
    exact hI.hw
  · intro hx
    have hx0 := hx t
    dsimp only at hx0
    rw [Function.update_same] at hx0
    simp [isBiased] at hx0
  · intro hx
    have hx0 := hx t
    dsimp only at hx0
    rw [Function.update_same] at hx0
    simp [isBiasedOrLoop] at hx0
  · intro t' r0 h'
    dsimp only at h'
    rcases eq_or_ne t' t with rfl | hne
    · rw [Function.update_same] at h'
      simp at h'
    · rw [Function.update_noteq hne] at h'
      have heq := hI.huniq t' t (by rw [h']; rfl) (by rw [h]; rfl)
      exact absurd heq hne
  · intro t' h'
    dsimp only at h'
    rcases eq_or_ne t' t with rfl | hne
    · rw [Function.update_same] at h'
      simp at h'
    · rw [Function.update_noteq hne] at h'
      have heq := hI.huniq t' t (by rw [h']; rfl) (by rw [h]; rfl)
      exact absurd heq hne
  · intro t' h'
    dsimp only at h' ⊢
    rcases eq_or_ne t' t with rfl | hne
    · refine ⟨?_, ?_, ?_, ?_, e1, e3⟩
      · omega
      · omega
      · omega
      · omega
    · rw [Function.update_noteq hne] at h'
      have heq := hI.huniq t' t (by rw [h']; rfl) (by rw [h]; rfl)
      exact absurd heq hne
  · intro t' k h'
    dsimp only at h'
    rcases eq_or_ne t' t with rfl | hne
    · rw [Function.update_same] at h'
      simp at h'
    · rw [Function.update_noteq hne] at h'
      have heq := hI.huniq t' t (by rw [h']; rfl) (by rw [h]; rfl)
      exact absurd heq hne
  · intro t' r' h'
    dsimp only at h'
    rcases eq_or_ne t' t with rfl | hne
    · rw [Function.update_same] at h'
      simp at h'
    · rw [Function.update_noteq hne] at h'
      exact hI.hslow t' r' h'
  · intro hpos
    dsimp only at hpos
    exact absurd hpos (by omega)
  · intro x
    dsimp only
    rcases eq_or_ne x t with rfl | hne
    · rw [Function.update_same]
      simp
    · rw [Function.update_noteq hne]
      exact hI.hfatal x

/-- Preservation for `Lock`'s bias subtraction when readers are registered:
the recovered count `r0` is nonzero and the writer must wait for them. -/
theorem inv_lock_bias_pos {n : Nat} {s : MState n} {t : Fin n}
    (hn : n ≤ 1073741824) (hI : Inv n s) (h : s.ts t = .lockPre)
    (hr : wrap32 (s.readerCount - rwmutexMaxReaders) + rwmutexMaxReaders ≠ 0) :
    Inv n { s with ts := Function.update s.ts t
                     (.lockNoted (wrap32 (s.readerCount - rwmutexMaxReaders)
                       + rwmutexMaxReaders)),
                   readerCount := wrap32 (s.readerCount - rwmutexMaxReaders) } := by
  have hM := rwmutexMaxReaders_eq
  have hnb : ∀ u, isBiased (s.ts u) = false := by
    intro u
    cases hbu : isBiased (s.ts u)
    · rfl
    · exfalso
      have heq := hI.huniq u t (isHolder_of_biased hbu) (by rw [h]; rfl)
      rw [heq, h] at hbu
      simp [isBiased] at hbu
  have hnbl : ∀ u, isBiasedOrLoop (s.ts u) = false := by
    intro u
    cases hbu : isBiasedOrLoop (s.ts u)
    · rfl
    · exfalso
      have heq := hI.huniq u t (isHolder_of_biasedOrLoop hbu) (by rw [h]; rfl)
      rw [heq, h] at hbu
      simp [isBiasedOrLoop] at hbu
  have hC := hI.hCq hnb
  obtain ⟨e1, e2, e3, e4⟩ := hI.hq hnbl
  have hreg : cnt isReg s.ts + 1 ≤ n :=
    cnt_add_one_le _ _ t (by rw [h]; rfl)
  rw [cnt_reg] at hreg
  have hw32 : wrap32 (s.readerCount - rwmutexMaxReaders)
      = s.readerCount - rwmutexMaxReaders := by
    apply wrap32_eq_self <;> omega
  have hR' : cnt isReading (Function.update s.ts t
      (.lockNoted (wrap32 (s.readerCount - rwmutexMaxReaders)
        + rwmutexMaxReaders))) = cnt isReading s.ts :=
    cnt_update_eq _ _ _ _ (by rw [h]; rfl)
  have hK' : cnt isRPark (Function.update s.ts t
      (.lockNoted (wrap32 (s.readerCount - rwmutexMaxReaders)
        + rwmutexMaxReaders))) = cnt isRPark s.ts :=
    cnt_update_eq _ _ _ _ (by rw [h]; rfl)
  have hS' : cnt isSlow (Function.update s.ts t
      (.lockNoted (wrap32 (s.readerCount - rwmutexMaxReaders)
        + rwmutexMaxReaders))) = cnt isSlow s.ts :=
    cnt_update_eq _ _ _ _ (by rw [h]; rfl)
  have hvH : isHolder (TStatus.lockNoted (wrap32 (s.readerCount - rwmutexMaxReaders)
      + rwmutexMaxReaders)) = isHolder (s.ts t) := by rw [h]; rfl
  refine ⟨?_, ?_, ?_, ?_, ?_, ?_, ?_, ?_, ?_, ?_, ?_⟩
  · intro t1 t2 h1 h2
    dsimp only at h1 h2
    rw [update_class_eq hvH t1] at h1
    rw [update_class_eq hvH t2] at h2
    exact hI.huniq t1 t2 h1 h2
  · dsimp only
    simp only [update_class_eq hvH]
    exact hI.hw
  · intro hx
    have hx0 := hx t
    dsimp only at hx0
    rw [Function.update_same] at hx0
    simp [isBiased] at hx0
  · intro hx
    have hx0 := hx t
    dsimp only at hx0
    rw [Function.update_same] at hx0
    simp [isBiasedOrLoop] at hx0
  · intro t' r0 h'
    dsimp only at h' ⊢
    rcases eq_or_ne t' t with rfl | hne
    · rw [Function.update_same] at h'
      injection h' with hr0
      subst hr0
      refine ⟨?_, ?_, ?_, hr, ?_, e3, ?_⟩
      · omega
      · omega
      · omega
      · omega
      · omega
    · rw [Function.update_noteq hne] at h'
      have heq := hI.huniq t' t (by rw [h']; rfl) (by rw [h]; rfl)
      exact absurd heq hne
  · intro t' h'
    dsimp only at h'
    rcases eq_or_ne t' t with rfl | hne
    · rw [Function.update_same] at h'
      simp at h'
    · rw [Function.update_noteq hne] at h'
      have heq := hI.huniq t' t (by rw [h']; rfl) (by rw [h]; rfl)
      exact absurd heq hne
  · intro t' h'
    dsimp only at h'
    rcases eq_or_ne t' t with rfl | hne
    · rw [Function.update_same] at h'
      simp at h'
    · rw [Function.update_noteq hne] at h'
      have heq := hI.huniq t' t (by rw [h']; rfl) (by rw [h]; rfl)
      exact absurd heq hne
  · intro t' k h'
    dsimp only at h'
    rcases eq_or_ne t' t with rfl | hne
    · rw [Function.update_same] at h'
      simp at h'
    · rw [Function.update_noteq hne] at h'
      have heq := hI.huniq t' t (by rw [h']; rfl) (by rw [h]; rfl)
      exact absurd heq hne
  · intro t' r' h'
    dsimp only at h'
    rcases eq_or_ne t' t with rfl | hne
    · rw [Function.update_same] at h'
      simp at h'
    · rw [Function.update_noteq hne] at h'
      exact hI.hslow t' r' h'
  · intro hpos
    dsimp only at hpos
    exact absurd hpos (by omega)
  · intro x
    dsimp only
    rcases eq_or_ne x t with rfl | hne
    · rw [Function.update_same]
      simp
    · rw [Function.update_noteq hne]
      exact hI.hfatal x

/-- Preservation for `Lock`'s `readerWait.Add(r0)` observing a nonzero
result: readers are still draining, so the writer parks on `writerSem`. -/
theorem inv_lock_wait_add_park {n : Nat} {s : MState n} {t : Fin n} {r0 : Int}
    (hn : n ≤ 1073741824) (hI : Inv n s) (h : s.ts t = .lockNoted r0)
    (hz : wrap32 (s.readerWait + r0) ≠ 0) :
    Inv n { s with ts := Function.update s.ts t .lockPark,
                   readerWait := wrap32 (s.readerWait + r0) } := by
  have hM := rwmutexMaxReaders_eq
  obtain ⟨e1, e2, e3, e4, e5, e6, e7⟩ := hI.hnoted t r0 h
  have hRKS := reg_slow_le s.ts
  have hw32 : wrap32 (s.readerWait + r0) = s.readerWait + r0 := by
    apply wrap32_eq_self <;> omega
  have hR' : cnt isReading (Function.update s.ts t .lockPark)
      = cnt isReading s.ts := cnt_update_eq _ _ _ _ (by rw [h]; rfl)
  have hK' : cnt isRPark (Function.update s.ts t .lockPark)
      = cnt isRPark s.ts := cnt_update_eq _ _ _ _ (by rw [h]; rfl)
  have hS' : cnt isSlow (Function.update s.ts t .lockPark)
      = cnt isSlow s.ts := cnt_update_eq _ _ _ _ (by rw [h]; rfl)
  have hvH : isHolder .lockPark = isHolder (s.ts t) := by rw [h]; rfl
  refine ⟨?_, ?_, ?_, ?_, ?_, ?_, ?_, ?_, ?_, ?_, ?_⟩
  · intro t1 t2 h1 h2
    dsimp only at h1 h2
    rw [update_class_eq hvH t1] at h1
    rw [update_class_eq hvH t2] at h2
    exact hI.huniq t1 t2 h1 h2
  · dsimp only
    simp only [update_class_eq hvH]
    exact hI.hw
  · intro hx
    have hx0 := hx t
    dsimp only at hx0
    rw [Function.update_same] at hx0
    simp [isBiased] at hx0
  · intro hx
    have hx0 := hx t
    dsimp only at hx0
    rw [Function.update_same] at hx0
    simp [isBiasedOrLoop] at hx0
  · intro t' r0' h'
    dsimp only at h'
    rcases eq_or_ne t' t with rfl | hne
    · rw [Function.update_same] at h'
      simp at h'
    · rw [Function.update_noteq hne] at h'
      have heq := hI.huniq t' t (by rw [h']; rfl) (by rw [h]; rfl)
      exact absurd heq hne
  · intro t' h'
    dsimp only at h' ⊢
    rcases eq_or_ne t' t with rfl | hne
    · refine ⟨?_, ?_, ?_, ?_, ?_⟩
      · omega
      · omega
      · intro h0
        exact absurd h0 hz
      · intro _
        exact e6
      · omega
    · rw [Function.update_noteq hne] at h'
      have heq := hI.huniq t' t (by rw [h']; rfl) (by rw [h]; rfl)
      exact absurd heq hne
  · intro t' h'
    dsimp only at h'
    rcases eq_or_ne t' t with rfl | hne
    · rw [Function.update_same] at h'
      simp at h'
    · rw [Function.update_noteq hne] at h'
      have heq := hI.huniq t' t (by rw [h']; rfl) (by rw [h]; rfl)
      exact absurd heq hne
  · intro t' k h'
    dsimp only at h'
    rcases eq_or_ne t' t with rfl | hne
    · rw [Function.update_same] at h'
      simp at h'
    · rw [Function.update_noteq hne] at h'
      have heq := hI.huniq t' t (by rw [h']; rfl) (by rw [h]; rfl)
      exact absurd heq hne
  · intro t' r' h'
    dsimp only at h'
    rcases eq_or_ne t' t with rfl | hne
    · rw [Function.update_same] at h'
      simp at h'
    · rw [Function.update_noteq hne] at h'
      exact hI.hslow t' r' h'
  · intro _
    dsimp only
    refine ⟨t, ?_⟩
    rw [Function.update_same]
    rfl
  · intro x
    dsimp only
    rcases eq_or_ne x t with rfl | hne
    · rw [Function.update_same]
      simp
    · rw [Function.update_noteq hne]
      exact hI.hfatal x

/-- Preservation for `Lock`'s `readerWait.Add(r0)` landing on zero: all the
readers drained between the two atomic operations, so the writer does not
park and enters its critical section at once. -/
theorem inv_lock_wait_add_zero {n : Nat} {s : MState n} {t : Fin n} {r0 : Int}
    (hn : n ≤ 1073741824) (hI : Inv n s) (h : s.ts t = .lockNoted r0)
    (hz : wrap32 (s.readerWait + r0) = 0) :
    Inv n { s with ts := Function.update s.ts t .writing,
                   readerWait := wrap32 (s.readerWait + r0) } := by
  have hM := rwmutexMaxReaders_eq
  obtain ⟨e1, e2, e3, e4, e5, e6, e7⟩ := hI.hnoted t r0 h
  have hRKS := reg_slow_le s.ts
  have hw32 : wrap32 (s.readerWait + r0) = s.readerWait + r0 := by
    apply wrap32_eq_self <;> omega
  have hR0 : cnt isReading s.ts = 0 := by omega
  have hP0 : s.readerSem = 0 := by omega
  have hS0 : cnt isSlow s.ts = 0 := by omega
  have hR' : cnt isReading (Function.update s.ts t .writing)
      = cnt isReading s.ts := cnt_update_eq _ _ _ _ (by rw [h]; rfl)
  have hK' : cnt isRPark (Function.update s.ts t .writing)
      = cnt isRPark s.ts := cnt_update_eq _ _ _ _ (by rw [h]; rfl)
  have hS' : cnt isSlow (Function.update s.ts t .writing)
      = cnt isSlow s.ts := cnt_update_eq _ _ _ _ (by rw [h]; rfl)
  have hvH : isHolder .writing = isHolder (s.ts t) := by rw [h]; rfl
  refine ⟨?_, ?_, ?_, ?_, ?_, ?_, ?_, ?_, ?_, ?_, ?_⟩
  · intro t1 t2 h1 h2
    dsimp only at h1 h2
    rw [update_class_eq hvH t1] at h1
    rw [update_class_eq hvH t2] at h2
    exact hI.huniq t1 t2 h1 h2
  · dsimp only
    simp only [update_class_eq hvH]
    exact hI.hw
  · intro hx
    have hx0 := hx t
    dsimp only at hx0
    rw [Function.update_same] at hx0
    simp [isBiased] at hx0
  · intro hx
    have hx0 := hx t
    dsimp only at hx0
    rw [Function.update_same] at hx0
    simp [isBiasedOrLoop] at hx0
  · intro t' r0' h'
    dsimp only at h'
    rcases eq_or_ne t' t with rfl | hne
    · rw [Function.update_same] at h'
      simp at h'
    · rw [Function.update_noteq hne] at h'
      have heq := hI.huniq t' t (by rw [h']; rfl) (by rw [h]; rfl)
      exact absurd heq hne
  · intro t' h'
    dsimp only at h'
    rcases eq_or_ne t' t with rfl | hne
    · rw [Function.update_same] at h'
      simp at h'
    · rw [Function.update_noteq hne] at h'
      have heq := hI.huniq t' t (by rw [h']; rfl) (by rw [h]; rfl)
      exact absurd heq hne
  · intro t' h'
    dsimp only at h' ⊢
    rcases eq_or_ne t' t with rfl | hne
    · refine ⟨?_, ?_, ?_, ?_, ?_, e6⟩
      · omega
      · omega
      · omega
      · omega
      · omega
    · rw [Function.update_noteq hne] at h'
      have heq := hI.huniq t' t (by rw [h']; rfl) (by rw [h]; rfl)
      exact absurd heq hne
  · intro t' k h'
    dsimp only at h'
    rcases eq_or_ne t' t with rfl | hne
    · rw [Function.update_same] at h'
      simp at h'
    · rw [Function.update_noteq hne] at h'
      have heq := hI.huniq t' t (by rw [h']; rfl) (by rw [h]; rfl)
      exact absurd heq hne
  · intro t' r' h'
    dsimp only at h'
    rcases eq_or_ne t' t with rfl | hne
    · rw [Function.update_same] at h'
      simp at h'
    · rw [Function.update_noteq hne] at h'
      exact hI.hslow t' r' h'
  · intro hpos
    dsimp only at hpos
    exact absurd hpos (by omega)
  · intro x
    dsimp only
    rcases eq_or_ne x t with rfl | hne
    · rw [Function.update_same]
      simp
    · rw [Function.update_noteq hne]
      exact hI.hfatal x

/-- Preservation for the parked writer resuming from `writerSem`: the last
reader drained and released the permit, the writer enters its critical
section. -/
theorem inv_lock_wake {n : Nat} {s : MState n} {t : Fin n}
    (hI : Inv n s) (h : s.ts t = .lockPark) (hq0 : 0 < s.writerSem) :
    Inv n { s with ts := Function.update s.ts t .writing,
                   writerSem := s.writerSem - 1 } := by
  have hM := rwmutexMaxReaders_eq
  obtain ⟨e1, e2, e3, e4, e5⟩ := hI.hpark t h
  have hW0 : s.readerWait = 0 := by
    by_contra hW
    have := e4 hW
    omega
  have hQ1 : s.writerSem = 1 := e3 hW0
  have hR0 : cnt isReading s.ts = 0 := by omega
  have hP0 : s.readerSem = 0 := by omega
  have hS0 : cnt isSlow s.ts = 0 := by omega
  have hR' : cnt isReading (Function.update s.ts t .writing)
      = cnt isReading s.ts := cnt_update_eq _ _ _ _ (by rw [h]; rfl)
  have hK' : cnt isRPark (Function.update s.ts t .writing)
      = cnt isRPark s.ts := cnt_update_eq _ _ _ _ (by rw [h]; rfl)
  have hS' : cnt isSlow (Function.update s.ts t .writing)
      = cnt isSlow s.ts := cnt_update_eq _ _ _ _ (by rw [h]; rfl)
  have hvH : isHolder .writing = isHolder (s.ts t) := by rw [h]; rfl
  refine ⟨?_, ?_, ?_, ?_, ?_, ?_, ?_, ?_, ?_, ?_, ?_⟩
  · intro t1 t2 h1 h2
    dsimp only at h1 h2
    rw [update_class_eq hvH t1] at h1
    rw [update_class_eq hvH t2] at h2
    exact hI.huniq t1 t2 h1 h2
  · dsimp only
    simp only [update_class_eq hvH]
    exact hI.hw
  · intro hx
    have hx0 := hx t
    dsimp only at hx0
    rw [Function.update_same] at hx0
    simp [isBiased] at hx0
  · intro hx
    have hx0 := hx t
    dsimp only at hx0
    rw [Function.update_same] at hx0
    simp [isBiasedOrLoop] at hx0
  · intro t' r0' h'
    dsimp only at h'
    rcases eq_or_ne t' t with rfl | hne
    · rw [Function.update_same] at h'
      simp at h'
    · rw [Function.update_noteq hne] at h'
      have heq := hI.huniq t' t (by rw [h']; rfl) (by rw [h]; rfl)
      exact absurd heq hne
  · intro t' h'
    dsimp only at h'
    rcases eq_or_ne t' t with rfl | hne
    · rw [Function.update_same] at h'
      simp at h'
    · rw [Function.update_noteq hne] at h'
      have heq := hI.huniq t' t (by rw [h']; rfl) (by rw [h]; rfl)
      exact absurd heq hne
  · intro t' h'
    dsimp only at h' ⊢
    rcases eq_or_ne t' t with rfl | hne
    · refine ⟨?_, ?_, ?_, ?_, ?_, ?_⟩
      · omega
      · omega
      · omega
      · omega
      · omega
      · omega
    · rw [Function.update_noteq hne] at h'
      have heq := hI.huniq t' t (by rw [h']; rfl) (by rw [h]; rfl)
      exact absurd heq hne
  · intro t' k h'
    dsimp only at h'
    rcases eq_or_ne t' t with rfl | hne
    · rw [Function.update_same] at h'
      simp at h'
    · rw [Function.update_noteq hne] at h'
      have heq := hI.huniq t' t (by rw [h']; rfl) (by rw [h]; rfl)
      exact absurd heq hne
  · intro t' r' h'
    dsimp only at h'
    rcases eq_or_ne t' t with rfl | hne
    · rw [Function.update_same] at h'
      simp at h'
    · rw [Function.update_noteq hne] at h'
      exact hI.hslow t' r' h'
  · intro hpos
    dsimp only at hpos
    exact absurd hpos (by omega)
  · intro x
    dsimp only
    rcases eq_or_ne x t with rfl | hne
    · rw [Function.update_same]
      simp
    · rw [Function.update_noteq hne]
      exact hI.hfatal x

/-- Preservation for `Unlock`'s fatal branch: unreachable, because a writer
in its critical section always finds a restored count below the maximum. -/
theorem inv_unlock_fatal {n : Nat} {s : MState n} {t : Fin n}
    (hn : n ≤ 1073741824) (hI : Inv n s) (h : s.ts t = .writing)
    (hf : rwmutexMaxReaders ≤ wrap32 (s.readerCount + rwmutexMaxReaders)) :
    Inv n { s with ts := Function.update s.ts t .fataled,
                   readerCount := wrap32 (s.readerCount + rwmutexMaxReaders) } := by
  exfalso
  have hM := rwmutexMaxReaders_eq
  obtain ⟨e1, e2, e3, e4, e5, e6⟩ := hI.hwrite t h
  have hKle : cnt isRPark s.ts + 1 ≤ n :=
    cnt_add_one_le _ _ t (by rw [h]; rfl)
  have hw32 : wrap32 (s.readerCount + rwmutexMaxReaders)
      = s.readerCount + rwmutexMaxReaders := by
    apply wrap32_eq_self <;> omega
  omega

/-- Preservation for `Unlock`'s bias-removing add: the restored reader count
is below the maximum and becomes the iteration count of the release loop. -/
theorem inv_unlock_start {n : Nat} {s : MState n} {t : Fin n}
    (hn : n ≤ 1073741824) (hI : Inv n s) (h : s.ts t = .writing)
    (hf : wrap32 (s.readerCount + rwmutexMaxReaders) < rwmutexMaxReaders) :
    Inv n { s with ts := Function.update s.ts t
                     (.unlockLoop (wrap32 (s.readerCount + rwmutexMaxReaders)).toNat),
                   readerCount := wrap32 (s.readerCount + rwmutexMaxReaders) } := by
  have hM := rwmutexMaxReaders_eq
  obtain ⟨e1, e2, e3, e4, e5, e6⟩ := hI.hwrite t h
  have hKle : cnt isRPark s.ts + 1 ≤ n :=
    cnt_add_one_le _ _ t (by rw [h]; rfl)
  have hw32 : wrap32 (s.readerCount + rwmutexMaxReaders)
      = s.readerCount + rwmutexMaxReaders := by
    apply wrap32_eq_self <;> omega
  have htn : ((wrap32 (s.readerCount + rwmutexMaxReaders)).toNat : Int)
      = wrap32 (s.readerCount + rwmutexMaxReaders) := by omega
  have hR' : cnt isReading (Function.update s.ts t
      (.unlockLoop (wrap32 (s.readerCount + rwmutexMaxReaders)).toNat))
      = cnt isReading s.ts := cnt_update_eq _ _ _ _ (by rw [h]; rfl)
  have hK' : cnt isRPark (Function.update s.ts t
      (.unlockLoop (wrap32 (s.readerCount + rwmutexMaxReaders)).toNat))
      = cnt isRPark s.ts := cnt_update_eq _ _ _ _ (by rw [h]; rfl)
  have hS' : cnt isSlow (Function.update s.ts t
      (.unlockLoop (wrap32 (s.readerCount + rwmutexMaxReaders)).toNat))
      = cnt isSlow s.ts := cnt_update_eq _ _ _ _ (by rw [h]; rfl)
  have hvH : isHolder (TStatus.unlockLoop
      (wrap32 (s.readerCount + rwmutexMaxReaders)).toNat)
      = isHolder (s.ts t) := by rw [h]; rfl
  refine ⟨?_, ?_, ?_, ?_, ?_, ?_, ?_, ?_, ?_, ?_, ?_⟩
  · intro t1 t2 h1 h2
    dsimp only at h1 h2
    rw [update_class_eq hvH t1] at h1
    rw [update_class_eq hvH t2] at h2
    exact hI.huniq t1 t2 h1 h2
  · dsimp only
    simp only [update_class_eq hvH]
    exact hI.hw
  · intro _
    dsimp only
    omega
  · intro hx
    have hx0 := hx t
    dsimp only at hx0
    rw [Function.update_same] at hx0
    simp [isBiasedOrLoop] at hx0
  · intro t' r0' h'
    dsimp only at h'
    rcases eq_or_ne t' t with rfl | hne
    · rw [Function.update_same] at h'
      simp at h'
    · rw [Function.update_noteq hne] at h'
      have heq := hI.huniq t' t (by rw [h']; rfl) (by rw [h]; rfl)
      exact absurd heq hne
  · intro t' h'
    dsimp only at h'
    rcases eq_or_ne t' t with rfl | hne
    · rw [Function.update_same] at h'
      simp at h'
    · rw [Function.update_noteq hne] at h'
      have heq := hI.huniq t' t (by rw [h']; rfl) (by rw [h]; rfl)
      exact absurd heq hne
  · intro t' h'
    dsimp only at h'
    rcases eq_or_ne t' t with rfl | hne
    · rw [Function.update_same] at h'
      simp at h'
    · rw [Function.update_noteq hne] at h'
      have heq := hI.huniq t' t (by rw [h']; rfl) (by rw [h]; rfl)
      exact absurd heq hne
  · intro t' k h'
    dsimp only at h' ⊢
    rcases eq_or_ne t' t with rfl | hne
    · rw [Function.update_same] at h'
      injection h' with hk
      subst hk
      refine ⟨e5, ?_, e6, ?_⟩
      · omega
      · omega
    · rw [Function.update_noteq hne] at h'
      have heq := hI.huniq t' t (by rw [h']; rfl) (by rw [h]; rfl)
      exact absurd heq hne
  · intro t' r' h'
    dsimp only at h'
    rcases eq_or_ne t' t with rfl | hne
    · rw [Function.update_same] at h'
      simp at h'
    · rw [Function.update_noteq hne] at h'
      exact hI.hslow t' r' h'
  · intro hpos
    dsimp only at hpos
    exact absurd hpos (by omega)
  · intro x
    dsimp only
    rcases eq_or_ne x t with rfl | hne
    · rw [Function.update_same]
      simp
    · rw [Function.update_noteq hne]
      exact hI.hfatal x

/-- Preservation for one iteration of `Unlock`'s release loop: one permit is
released on `readerSem` for one of the parked readers. -/
theorem inv_unlock_release {n : Nat} {s : MState n} {t : Fin n} {k : Nat}
    (hI : Inv n s) (h : s.ts t = .unlockLoop k) (hk : 0 < k) :
    Inv n { s with ts := Function.update s.ts t (.unlockLoop (k - 1)),
                   readerSem := s.readerSem + 1 } := by
  obtain ⟨e1, e2, e3, e4⟩ := hI.hloop t k h
  have hR' : cnt isReading (Function.update s.ts t (.unlockLoop (k - 1)))
      = cnt isReading s.ts := cnt_update_eq _ _ _ _ (by rw [h]; rfl)
  have hK' : cnt isRPark (Function.update s.ts t (.unlockLoop (k - 1)))
      = cnt isRPark s.ts := cnt_update_eq _ _ _ _ (by rw [h]; rfl)
  have hS' : cnt isSlow (Function.update s.ts t (.unlockLoop (k - 1)))
      = cnt isSlow s.ts := cnt_update_eq _ _ _ _ (by rw [h]; rfl)
  have hvH : isHolder (TStatus.unlockLoop (k - 1)) = isHolder (s.ts t) := by
    rw [h]; rfl
  have hvB : isBiased (TStatus.unlockLoop (k - 1)) = isBiased (s.ts t) := by
    rw [h]; rfl
  refine ⟨?_, ?_, ?_, ?_, ?_, ?_, ?_, ?_, ?_, ?_, ?_⟩
  · intro t1 t2 h1 h2
    dsimp only at h1 h2
    rw [update_class_eq hvH t1] at h1
    rw [update_class_eq hvH t2] at h2
    exact hI.huniq t1 t2 h1 h2
  · dsimp only
    simp only [update_class_eq hvH]
    exact hI.hw
  · intro hx
    dsimp only at hx ⊢
    simp only [update_class_eq hvB] at hx
    have hC := hI.hCq hx
    omega
  · intro hx
    have hx0 := hx t
    dsimp only at hx0
    rw [Function.update_same] at hx0
    simp [isBiasedOrLoop] at hx0
  · intro t' r0' h'
    dsimp only at h'
    rcases eq_or_ne t' t with rfl | hne
    · rw [Function.update_same] at h'
      simp at h'
    · rw [Function.update_noteq hne] at h'
      have heq := hI.huniq t' t (by rw [h']; rfl) (by rw [h]; rfl)
      exact absurd heq hne
  · intro t' h'
    dsimp only at h'
    rcases eq_or_ne t' t with rfl | hne
    · rw [Function.update_same] at h'
      simp at h'
    · rw [Function.update_noteq hne] at h'
      have heq := hI.huniq t' t (by rw [h']; rfl) (by rw [h]; rfl)
      exact absurd heq hne
  · intro t' h'
    dsimp only at h'
    rcases eq_or_ne t' t with rfl | hne
    · rw [Function.update_same] at h'
      simp at h'
    · rw [Function.update_noteq hne] at h'
      have heq := hI.huniq t' t (by rw [h']; rfl) (by rw [h]; rfl)
      exact absurd heq hne
  · intro t' k' h'
    dsimp only at h' ⊢
    rcases eq_or_ne t' t with rfl | hne
    · rw [Function.update_same] at h'
      injection h' with hk'
      subst hk'
      refine ⟨e1, ?_, e3, ?_⟩
      · omega
      · omega
    · rw [Function.update_noteq hne] at h'
      have heq := hI.huniq t' t (by rw [h']; rfl) (by rw [h]; rfl)
      exact absurd heq hne
  · intro t' r' h'
    dsimp only at h'
    rcases eq_or_ne t' t with rfl | hne
    · rw [Function.update_same] at h'
      simp at h'
    · rw [Function.update_noteq hne] at h'
      exact hI.hslow t' r' h'
  · intro hpos
    dsimp only at hpos
    exact absurd hpos (by omega)
  · intro x
    dsimp only
    rcases eq_or_ne x t with rfl | hne
    · rw [Function.update_same]
      simp
    · rw [Function.update_noteq hne]
      exact hI.hfatal x

/-- Preservation for `Unlock`'s final `w.Unlock()`: the release loop is done
and the inner mutex is released. -/
theorem inv_unlock_mutex {n : Nat} {s : MState n} {t : Fin n}
    (hI : Inv n s) (h : s.ts t = .unlockLoop 0) :
    Inv n { s with ts := Function.update s.ts t .idle, wlocked := false } := by
  obtain ⟨e1, e2, e3, e4⟩ := hI.hloop t 0 h
  have hnb : ∀ u, isBiased (s.ts u) = false := by
    intro u
    cases hbu : isBiased (s.ts u)
    · rfl
    · exfalso
      have heq := hI.huniq u t (isHolder_of_biased hbu) (by rw [h]; rfl)
      rw [heq, h] at hbu
      simp [isBiased] at hbu
  have hC := hI.hCq hnb
  have hR' : cnt isReading (Function.update s.ts t .idle)
      = cnt isReading s.ts := cnt_update_eq _ _ _ _ (by rw [h]; rfl)
  have hK' : cnt isRPark (Function.update s.ts t .idle)
      = cnt isRPark s.ts := cnt_update_eq _ _ _ _ (by rw [h]; rfl)
  have hS' : cnt isSlow (Function.update s.ts t .idle)
      = cnt isSlow s.ts := cnt_update_eq _ _ _ _ (by rw [h]; rfl)
  refine ⟨?_, ?_, ?_, ?_, ?_, ?_, ?_, ?_, ?_, ?_, ?_⟩
  · intro t1 t2 h1 h2
    dsimp only at h1 h2
    by_cases h1t : t1 = t
    · rw [h1t, Function.update_same] at h1
      simp [isHolder] at h1
    · rw [Function.update_noteq h1t] at h1
      have heq := hI.huniq t1 t h1 (by rw [h]; rfl)
      exact absurd heq h1t
  · dsimp only
    constructor
    · intro h0
      simp at h0
    · rintro ⟨x, hx⟩
      exfalso
      by_cases hxt : x = t
      · rw [hxt, Function.update_same] at hx
        simp [isHolder] at hx
      · rw [Function.update_noteq hxt] at hx
        have heq := hI.huniq x t hx (by rw [h]; rfl)
        exact absurd heq hxt
  · intro _
    dsimp only
    omega
  · intro _
    dsimp only
    refine ⟨e1, ?_, e3, ?_⟩
    · omega
    · omega
  · intro t' r0' h'
    dsimp only at h'
    rcases eq_or_ne t' t with rfl | hne
    · rw [Function.update_same] at h'
      simp at h'
    · rw [Function.update_noteq hne] at h'
      have heq := hI.huniq t' t (by rw [h']; rfl) (by rw [h]; rfl)
      exact absurd heq hne
  · intro t' h'
    dsimp only at h'
    rcases eq_or_ne t' t with rfl | hne
    · rw [Function.update_same] at h'
      simp at h'
    · rw [Function.update_noteq hne] at h'
      have heq := hI.huniq t' t (by rw [h']; rfl) (by rw [h]; rfl)
      exact absurd heq hne
  · intro t' h'
    dsimp only at h'
    rcases eq_or_ne t' t with rfl | hne
    · rw [Function.update_same] at h'
      simp at h'
    · rw [Function.update_noteq hne] at h'
      have heq := hI.huniq t' t (by rw [h']; rfl) (by rw [h]; rfl)
      exact absurd heq hne
  · intro t' k' h'
    dsimp only at h'
    rcases eq_or_ne t' t with rfl | hne
    · rw [Function.update_same] at h'
      simp at h'
    · rw [Function.update_noteq hne] at h'
      have heq := hI.huniq t' t (by rw [h']; rfl) (by rw [h]; rfl)
      exact absurd heq hne
  · intro t' r' h'
    dsimp only at h'
    rcases eq_or_ne t' t with rfl | hne
    · rw [Function.update_same] at h'
      simp at h'
    · rw [Function.update_noteq hne] at h'
      exact hI.hslow t' r' h'
  · intro hpos
    dsimp only at hpos
    exact absurd hpos (by omega)
  · intro x
    dsimp only
    rcases eq_or_ne x t with rfl | hne
    · rw [Function.update_same]
      simp
    · rw [Function.update_noteq hne]
      exact hI.hfatal x

/-- Statuses that are mentioned by no clause of the invariant beyond the
class counts: steps that move a thread between two such statuses of equal
classes preserve the invariant without any arithmetic. -/
def isPlain : TStatus → Bool
  | .idle | .rlockPark | .reading | .lockPre | .tryPre | .tryBail
  | .tryRLoaded _ | .tryRRetry => true
  | _ => false

/-- Preservation for steps that only move thread `t` between two plain
statuses of identical classes and change no field of the lock. -/
theorem inv_update_plain {n : Nat} {s : MState n} {t : Fin n} {v : TStatus}
    (hI : Inv n s) (hp : isPlain v = true)
    (h1 : isReading v = isReading (s.ts t))
    (h2 : isRPark v = isRPark (s.ts t))
    (h3 : isSlow v = isSlow (s.ts t))
    (h4 : isHolder v = isHolder (s.ts t))
    (h5 : isBiased v = isBiased (s.ts t))
    (h6 : isBiasedOrLoop v = isBiasedOrLoop (s.ts t))
    (h7 : isNotedOrPark v = isNotedOrPark (s.ts t)) :
    Inv n { s with ts := Function.update s.ts t v } := by
  have hR' : cnt isReading (Function.update s.ts t v)
      = cnt isReading s.ts := cnt_update_eq _ _ _ _ h1
  have hK' : cnt isRPark (Function.update s.ts t v)
      = cnt isRPark s.ts := cnt_update_eq _ _ _ _ h2
  have hS' : cnt isSlow (Function.update s.ts t v)
      = cnt isSlow s.ts := cnt_update_eq _ _ _ _ h3
  refine ⟨?_, ?_, ?_, ?_, ?_, ?_, ?_, ?_, ?_, ?_, ?_⟩
  · intro t1 t2 ha hb
    dsimp only at ha hb
    rw [update_class_eq h4 t1] at ha
    rw [update_class_eq h4 t2] at hb
    exact hI.huniq t1 t2 ha hb
  · dsimp only
    simp only [update_class_eq h4]
    exact hI.hw
  · intro hx
    dsimp only at hx ⊢
    simp only [update_class_eq h5] at hx
    have := hI.hCq hx
    omega
  · intro hx
    dsimp only at hx ⊢
    simp only [update_class_eq h6] at hx
    obtain ⟨e1, e2, e3, e4⟩ := hI.hq hx
    refine ⟨e1, ?_, e3, ?_⟩
    · omega
    · omega
  · intro t' r0 h'
    dsimp only at h' ⊢
    rcases eq_or_ne t' t with rfl | hne
    · rw [Function.update_same] at h'
      rw [h'] at hp
      simp [isPlain] at hp
    · rw [Function.update_noteq hne] at h'
      obtain ⟨e1, e2, e3, e4, e5, e6, e7⟩ := hI.hnoted t' r0 h'
      refine ⟨?_, e2, ?_, e4, e5, e6, ?_⟩
      · omega
      · omega
      · omega
  · intro t' h'
    dsimp only at h' ⊢
    rcases eq_or_ne t' t with rfl | hne
    · rw [Function.update_same] at h'
      rw [h'] at hp
      simp [isPlain] at hp
    · rw [Function.update_noteq hne] at h'
      obtain ⟨e1, e2, e3, e4, e5⟩ := hI.hpark t' h'
      refine ⟨?_, ?_, e3, e4, ?_⟩
      · omega
      · omega
      · omega
  · intro t' h'
    dsimp only at h' ⊢
    rcases eq_or_ne t' t with rfl | hne
    · rw [Function.update_same] at h'
      rw [h'] at hp
      simp [isPlain] at hp
    · rw [Function.update_noteq hne] at h'
      obtain ⟨e1, e2, e3, e4, e5, e6⟩ := hI.hwrite t' h'
      refine ⟨?_, ?_, e3, ?_, e5, e6⟩
      · omega
      · omega
      · omega
  · intro t' k h'
    dsimp only at h' ⊢
    rcases eq_or_ne t' t with rfl | hne
    · rw [Function.update_same] at h'
      rw [h'] at hp
      simp [isPlain] at hp
    · rw [Function.update_noteq hne] at h'
      obtain ⟨e1, e2, e3, e4⟩ := hI.hloop t' k h'
      refine ⟨e1, ?_, e3, ?_⟩
      · omega
      · omega
  · intro t' r' h'
    dsimp only at h'
    rcases eq_or_ne t' t with rfl | hne
    · rw [Function.update_same] at h'
      rw [h'] at hp
      simp [isPlain] at hp
    · rw [Function.update_noteq hne] at h'
      exact hI.hslow t' r' h'
  · intro hpos
    dsimp only at hpos ⊢
    rw [hS'] at hpos
    obtain ⟨x, hx⟩ := hI.hSbias hpos
    refine ⟨x, ?_⟩
    rw [update_class_eq h7 x]
    exact hx
  · intro x
    dsimp only
    rcases eq_or_ne x t with rfl | hne
    · rw [Function.update_same]
      intro hv
      rw [hv] at hp
      simp [isPlain] at hp
    · rw [Function.update_noteq hne]
      exact hI.hfatal x

/-- Preservation for `TryLock`'s successful non-blocking acquisition of the
inner mutex `w`. -/
theorem inv_trylock_mutex {n : Nat} {s : MState n} {t : Fin n}
    (hI : Inv n s) (h : s.ts t = .idle) (hw : s.wlocked = false) :
    Inv n { s with ts := Function.update s.ts t .tryPre, wlocked := true } := by
  have hnh : ∀ u, isHolder (s.ts u) = false := by
    intro u
    cases hbu : isHolder (s.ts u)
    · rfl
    · exact absurd (hI.hw.mpr ⟨u, hbu⟩) (by rw [hw]; simp)
  have hnb : ∀ u, isBiased (s.ts u) = false := by
    intro u
    cases hbu : isBiased (s.ts u)
    · rfl
    · have := isHolder_of_biased hbu
      rw [hnh u] at this
      simp at this
  have hnbl : ∀ u, isBiasedOrLoop (s.ts u) = false := by
    intro u
    cases hbu : isBiasedOrLoop (s.ts u)
    · rfl
    · have := isHolder_of_biasedOrLoop hbu
      rw [hnh u] at this
      simp at this
  have hC := hI.hCq hnb
  obtain ⟨e1, e2, e3, e4⟩ := hI.hq hnbl
  have hR' : cnt isReading (Function.update s.ts t .tryPre)
      = cnt isReading s.ts := cnt_update_eq _ _ _ _ (by rw [h]; rfl)
  have hK' : cnt isRPark (Function.update s.ts t .tryPre)
      = cnt isRPark s.ts := cnt_update_eq _ _ _ _ (by rw [h]; rfl)
  have hS' : cnt isSlow (Function.update s.ts t .tryPre)
      = cnt isSlow s.ts := cnt_update_eq _ _ _ _ (by rw [h]; rfl)
  have hvNP : isNotedOrPark .tryPre = isNotedOrPark (s.ts t) := by rw [h]; rfl
  refine ⟨?_, ?_, ?_, ?_, ?_, ?_, ?_, ?_, ?_, ?_, ?_⟩
  · intro t1 t2 h1 h2
    dsimp only at h1 h2
    by_cases h1t : t1 = t
    · by_cases h2t : t2 = t
      · rw [h1t, h2t]
      · rw [Function.update_noteq h2t] at h2
        rw [hnh t2] at h2
        simp at h2
    · rw [Function.update_noteq h1t] at h1
      rw [hnh t1] at h1
      simp at h1
  · dsimp only
    constructor
    · intro _
      refine ⟨t, ?_⟩
      rw [Function.update_same]
      rfl
    · intro _
      rfl
  · intro _
    dsimp only
    rw [hR', hK']
    exact hC
  · intro _
    dsimp only
    rw [hS', hK']
    exact ⟨e1, e2, e3, e4⟩
  · intro t' r0 h'
    dsimp only at h'
    rcases eq_or_ne t' t with rfl | hne
    · rw [Function.update_same] at h'
      simp at h'
    · rw [Function.update_noteq hne] at h'
      have := hnh t'
      rw [h'] at this
      simp [isHolder] at this
  · intro t' h'
    dsimp only at h'
    rcases eq_or_ne t' t with rfl | hne
    · rw [Function.update_same] at h'
      simp at h'
    · rw [Function.update_noteq hne] at h'
      have := hnh t'
      rw [h'] at this
      simp [isHolder] at this
  · intro t' h'
    dsimp only at h'
    rcases eq_or_ne t' t with rfl | hne
    · rw [Function.update_same] at h'
      simp at h'
    · rw [Function.update_noteq hne] at h'
      have := hnh t'
      rw [h'] at this
      simp [isHolder] at this
  · intro t' k h'
    dsimp only at h'
    rcases eq_or_ne t' t with rfl | hne
    · rw [Function.update_same] at h'
      simp at h'
    · rw [Function.update_noteq hne] at h'
      have := hnh t'
      rw [h'] at this
      simp [isHolder] at this
  · intro t' r' h'
    dsimp only at h'
    rcases eq_or_ne t' t with rfl | hne
    · rw [Function.update_same] at h'
      simp at h'
    · rw [Function.update_noteq hne] at h'
      exact hI.hslow t' r' h'
  · intro hpos
    dsimp only at hpos
    rw [hS'] at hpos
    obtain ⟨x, hx⟩ := hI.hSbias hpos
    refine ⟨x, ?_⟩
    dsimp only
    rw [update_class_eq hvNP x]
    exact hx
  · intro x
    dsimp only
    rcases eq_or_ne x t with rfl | hne
    · rw [Function.update_same]
      simp
    · rw [Function.update_noteq hne]
      exact hI.hfatal x

/-- Preservation for `TryLock`'s successful CAS of `readerCount` from `0` to
`-rwmutexMaxReaders`: the thread becomes the writer at once. -/
theorem inv_trylock_cas_succ {n : Nat} {s : MState n} {t : Fin n}
    (hI : Inv n s) (h : s.ts t = .tryPre) (hc : s.readerCount = 0) :
    Inv n { s with ts := Function.update s.ts t .writing,
                   readerCount := -rwmutexMaxReaders } := by
  have hnb : ∀ u, isBiased (s.ts u) = false := by
    intro u
    cases hbu : isBiased (s.ts u)
    · rfl
    · exfalso
      have heq := hI.huniq u t (isHolder_of_biased hbu) (by rw [h]; rfl)
      rw [heq, h] at hbu
      simp [isBiased] at hbu
  have hnbl : ∀ u, isBiasedOrLoop (s.ts u) = false := by
    intro u
    cases hbu : isBiasedOrLoop (s.ts u)
    · rfl
    · exfalso
      have heq := hI.huniq u t (isHolder_of_biasedOrLoop hbu) (by rw [h]; rfl)
      rw [heq, h] at hbu
      simp [isBiasedOrLoop] at hbu
  have hC := hI.hCq hnb
  obtain ⟨e1, e2, e3, e4⟩ := hI.hq hnbl
  have hR0 : cnt isReading s.ts = 0 := by omega
  have hK0 : cnt isRPark s.ts = 0 := by omega
  have hR' : cnt isReading (Function.update s.ts t .writing)
      = cnt isReading s.ts := cnt_update_eq _ _ _ _ (by rw [h]; rfl)
  have hK' : cnt isRPark (Function.update s.ts t .writing)
      = cnt isRPark s.ts := cnt_update_eq _ _ _ _ (by rw [h]; rfl)
  have hS' : cnt isSlow (Function.update s.ts t .writing)
      = cnt isSlow s.ts := cnt_update_eq _ _ _ _ (by rw [h]; rfl)
  have hvH : isHolder .writing = isHolder (s.ts t) := by rw [h]; rfl
  refine ⟨?_, ?_, ?_, ?_, ?_, ?_, ?_, ?_, ?_, ?_, ?_⟩
  · intro t1 t2 h1 h2
    dsimp only at h1 h2
    rw [update_class_eq hvH t1] at h1
    rw [update_class_eq hvH t2] at h2
    exact hI.huniq t1 t2 h1 h2
  · dsimp only
    simp only [update_class_eq hvH]
    exact hI.hw
  · intro hx
    have hx0 := hx t
    dsimp only at hx0
    rw [Function.update_same] at hx0
    simp [isBiased] at hx0
  · intro hx
    have hx0 := hx t
    dsimp only at hx0
    rw [Function.update_same] at hx0
    simp [isBiasedOrLoop] at hx0
  · intro t' r0 h'
    dsimp only at h'
    rcases eq_or_ne t' t with rfl | hne
    · rw [Function.update_same] at h'
      simp at h'
    · rw [Function.update_noteq hne] at h'
      have heq := hI.huniq t' t (by rw [h']; rfl) (by rw [h]; rfl)
      exact absurd heq hne
  · intro t' h'
    dsimp only at h'
    rcases eq_or_ne t' t with rfl | hne
    · rw [Function.update_same] at h'
      simp at h'
    · rw [Function.update_noteq hne] at h'
      have heq := hI.huniq t' t (by rw [h']; rfl) (by rw [h]; rfl)
      exact absurd heq hne
  · intro t' h'
    dsimp only at h' ⊢
    rcases eq_or_ne t' t with rfl | hne
    · refine ⟨?_, ?_, ?_, ?_, e1, e3⟩
      · omega
      · omega
      · omega
      · omega
    · rw [Function.update_noteq hne] at h'
      have heq := hI.huniq t' t (by rw [h']; rfl) (by rw [h]; rfl)
      exact absurd heq hne
  · intro t' k h'
    dsimp only at h'
    rcases eq_or_ne t' t with rfl | hne
    · rw [Function.update_same] at h'
      simp at h'
    · rw [Function.update_noteq hne] at h'
      have heq := hI.huniq t' t (by rw [h']; rfl) (by rw [h]; rfl)
      exact absurd heq hne
  · intro t' r' h'
    dsimp only at h'
    rcases eq_or_ne t' t with rfl | hne
    · rw [Function.update_same] at h'
      simp at h'
    · rw [Function.update_noteq hne] at h'
      exact hI.hslow t' r' h'
  · intro hpos
    dsimp only at hpos
    exact absurd hpos (by omega)
  · intro x
    dsimp only
    rcases eq_or_ne x t with rfl | hne
    · rw [Function.update_same]
      simp
    · rw [Function.update_noteq hne]
      exact hI.hfatal x

/-- Preservation for `TryLock`'s rollback `w.Unlock()` after a failed CAS. -/
theorem inv_trylock_bail {n : Nat} {s : MState n} {t : Fin n}
    (hI : Inv n s) (h : s.ts t = .tryBail) :
    Inv n { s with ts := Function.update s.ts t .idle, wlocked := false } := by
  have hnb : ∀ u, isBiased (s.ts u) = false := by
    intro u
    cases hbu : isBiased (s.ts u)
    · rfl
    · exfalso
      have heq := hI.huniq u t (isHolder_of_biased hbu) (by rw [h]; rfl)
      rw [heq, h] at hbu
      simp [isBiased] at hbu
  have hnbl : ∀ u, isBiasedOrLoop (s.ts u) = false := by
    intro u
    cases hbu : isBiasedOrLoop (s.ts u)
    · rfl
    · exfalso
      have heq := hI.huniq u t (isHolder_of_biasedOrLoop hbu) (by rw [h]; rfl)
      rw [heq, h] at hbu
      simp [isBiasedOrLoop] at hbu
  have hC := hI.hCq hnb
  obtain ⟨e1, e2, e3, e4⟩ := hI.hq hnbl
  have hR' : cnt isReading (Function.update s.ts t .idle)
      = cnt isReading s.ts := cnt_update_eq _ _ _ _ (by rw [h]; rfl)
  have hK' : cnt isRPark (Function.update s.ts t .idle)
      = cnt isRPark s.ts := cnt_update_eq _ _ _ _ (by rw [h]; rfl)
  have hS' : cnt isSlow (Function.update s.ts t .idle)
      = cnt isSlow s.ts := cnt_update_eq _ _ _ _ (by rw [h]; rfl)
  refine ⟨?_, ?_, ?_, ?_, ?_, ?_, ?_, ?_, ?_, ?_, ?_⟩
  · intro t1 t2 h1 h2
    dsimp only at h1 h2
    by_cases h1t : t1 = t
    · rw [h1t, Function.update_same] at h1
      simp [isHolder] at h1
    · rw [Function.update_noteq h1t] at h1
      have heq := hI.huniq t1 t h1 (by rw [h]; rfl)
      exact absurd heq h1t
  · dsimp only
    constructor
    · intro h0
      simp at h0
    · rintro ⟨x, hx⟩
      exfalso
      by_cases hxt : x = t
      · rw [hxt, Function.update_same] at hx
        simp [isHolder] at hx
      · rw [Function.update_noteq hxt] at hx
        have heq := hI.huniq x t hx (by rw [h]; rfl)
        exact absurd heq hxt
  · intro _
    dsimp only
    omega
  · intro _
    dsimp only
    refine ⟨e1, ?_, e3, ?_⟩
    · omega
    · omega
  · intro t' r0' h'
    dsimp only at h'
    rcases eq_or_ne t' t with rfl | hne
    · rw [Function.update_same] at h'
      simp at h'
    · rw [Function.update_noteq hne] at h'
      have heq := hI.huniq t' t (by rw [h']; rfl) (by rw [h]; rfl)
      exact absurd heq hne
  · intro t' h'
    dsimp only at h'
    rcases eq_or_ne t' t with rfl | hne
    · rw [Function.update_same] at h'
      simp at h'
    · rw [Function.update_noteq hne] at h'
      have heq := hI.huniq t' t (by rw [h']; rfl) (by rw [h]; rfl)
      exact absurd heq hne
  · intro t' h'
    dsimp only at h'
    rcases eq_or_ne t' t with rfl | hne
    · rw [Function.update_same] at h'
      simp at h'
    · rw [Function.update_noteq hne] at h'
      have heq := hI.huniq t' t (by rw [h']; rfl) (by rw [h]; rfl)
      exact absurd heq hne
  · intro t' k' h'
    dsimp only at h'
    rcases eq_or_ne t' t with rfl | hne
    · rw [Function.update_same] at h'
      simp at h'
    · rw [Function.update_noteq hne] at h'
      have heq := hI.huniq t' t (by rw [h']; rfl) (by rw [h]; rfl)
      exact absurd heq hne
  · intro t' r' h'
    dsimp only at h'
    rcases eq_or_ne t' t with rfl | hne
    · rw [Function.update_same] at h'
      simp at h'
    · rw [Function.update_noteq hne] at h'
      exact hI.hslow t' r' h'
  · intro hpos
    dsimp only at hpos
    exact absurd hpos (by omega)
  · intro x
    dsimp only
    rcases eq_or_ne x t with rfl | hne
    · rw [Function.update_same]
      simp
    · rw [Function.update_noteq hne]
      exact hI.hfatal x

/-- Preservation for `TryRLock`'s successful CAS: the observed nonnegative
value is still current, the thread increments it and acquires a read lock. -/
theorem inv_tryrlock_cas_succ {n : Nat} {s : MState n} {t : Fin n} {c : Int}
    (hn : n ≤ 1073741824) (hI : Inv n s) (h : s.ts t = .tryRLoaded c)
    (hc : 0 ≤ c) (he : s.readerCount = c) :
    Inv n { s with ts := Function.update s.ts t .reading,
                   readerCount := wrap32 (c + 1) } := by
  have hRK : cnt isReading s.ts + cnt isRPark s.ts ≤ n := by
    rw [← cnt_reg]
    exact cnt_le _ _
  obtain ⟨hnb, hC⟩ := no_biased_of_nonneg hn hI (by omega)
  have hw32 : wrap32 (c + 1) = c + 1 := by
    apply wrap32_eq_self <;> omega
  have hR' : cnt isReading (Function.update s.ts t .reading)
      = cnt isReading s.ts + 1 := cnt_update_add _ _ _ _ (by rw [h]; rfl) rfl
  have hK' : cnt isRPark (Function.update s.ts t .reading)
      = cnt isRPark s.ts := cnt_update_eq _ _ _ _ (by rw [h]; rfl)
  have hS' : cnt isSlow (Function.update s.ts t .reading)
      = cnt isSlow s.ts := cnt_update_eq _ _ _ _ (by rw [h]; rfl)
  have hvH : isHolder .reading = isHolder (s.ts t) := by rw [h]; rfl
  have hvBL : isBiasedOrLoop .reading = isBiasedOrLoop (s.ts t) := by rw [h]; rfl
  have hvNP : isNotedOrPark .reading = isNotedOrPark (s.ts t) := by rw [h]; rfl
  refine ⟨?_, ?_, ?_, ?_, ?_, ?_, ?_, ?_, ?_, ?_, ?_⟩
  · intro t1 t2 h1 h2
    dsimp only at h1 h2
    rw [update_class_eq hvH t1] at h1
    rw [update_class_eq hvH t2] at h2
    exact hI.huniq t1 t2 h1 h2
  · dsimp only
    simp only [update_class_eq hvH]
    exact hI.hw
  · intro _
    dsimp only
    omega
  · intro hx
    dsimp only at hx ⊢
    simp only [update_class_eq hvBL] at hx
    obtain ⟨e1, e2, e3, e4⟩ := hI.hq hx
    refine ⟨e1, ?_, e3, ?_⟩
    · omega
    · omega
  · intro t' r0 h'
    dsimp only at h'
    rcases eq_or_ne t' t with rfl | hne
    · rw [Function.update_same] at h'
      simp at h'
    · rw [Function.update_noteq hne] at h'
      have := hnb t'
      rw [h'] at this
      simp [isBiased] at this
  · intro t' h'
    dsimp only at h'
    rcases eq_or_ne t' t with rfl | hne
    · rw [Function.update_same] at h'
      simp at h'
    · rw [Function.update_noteq hne] at h'
      have := hnb t'
      rw [h'] at this
      simp [isBiased] at this
  · intro t' h'
    dsimp only at h'
    rcases eq_or_ne t' t with rfl | hne
    · rw [Function.update_same] at h'
      simp at h'
    · rw [Function.update_noteq hne] at h'
      have := hnb t'
      rw [h'] at this
      simp [isBiased] at this
  · intro t' k h'
    dsimp only at h' ⊢
    rcases eq_or_ne t' t with rfl | hne
    · rw [Function.update_same] at h'
      simp at h'
    · rw [Function.update_noteq hne] at h'
      obtain ⟨e1, e2, e3, e4⟩ := hI.hloop t' k h'
      refine ⟨e1, ?_, e3, ?_⟩
      · omega
      · omega
  · intro t' r' h'
    dsimp only at h'
    rcases eq_or_ne t' t with rfl | hne
    · rw [Function.update_same] at h'
      simp at h'
    · rw [Function.update_noteq hne] at h'
      exact hI.hslow t' r' h'
  · intro hpos
    dsimp only at hpos ⊢
    rw [hS'] at hpos
    obtain ⟨x, hx⟩ := hI.hSbias hpos
    refine ⟨x, ?_⟩
    rw [update_class_eq hvNP x]
    exact hx
  · intro x
    dsimp only
    rcases eq_or_ne x t with rfl | hne
    · rw [Function.update_same]
      simp
    · rw [Function.update_noteq hne]
      exact hI.hfatal x

/-- The invariant is preserved by every atomic step of every thread, for any
number of threads up to `rwmutexMaxReaders`. -/
theorem step_inv {n : Nat} {s s' : MState n} {t : Fin n}
    (hn : n ≤ 1073741824) (hI : Inv n s) (hs : Step t s s') : Inv n s' := by
  cases hs with
  | rlock_fast h hc => exact inv_rlock_fast hn hI h hc
  | rlock_park h hc => exact inv_rlock_park hn hI h hc
  | rlock_wake h hp => exact inv_rlock_wake hI h hp
  | runlock_fast h hc => exact inv_runlock_fast hn hI h hc
  | runlock_slow_enter h hc => exact inv_runlock_slow_enter hn hI h hc
  | runlock_fatal h hf => exact inv_runlock_fatal hI h hf
  | runlock_wait_dec h hf hz => exact inv_runlock_wait_dec hn hI h hz
  | runlock_wait_zero h hf hz => exact inv_runlock_wait_zero hn hI h hz
  | lock_mutex h hw => exact inv_lock_mutex hI h hw
  | lock_bias_zero h hr => exact inv_lock_bias_zero hn hI h hr
  | lock_bias_pos h hr => exact inv_lock_bias_pos hn hI h hr
  | lock_wait_add_park h hz => exact inv_lock_wait_add_park hn hI h hz
  | lock_wait_add_zero h hz => exact inv_lock_wait_add_zero hn hI h hz
  | lock_wake h hq0 => exact inv_lock_wake hI h hq0
  | unlock_fatal h hf => exact inv_unlock_fatal hn hI h hf
  | unlock_start h hf => exact inv_unlock_start hn hI h hf
  | unlock_release h hk => exact inv_unlock_release hI h hk
  | unlock_mutex h => exact inv_unlock_mutex hI h
  | trylock_mutex_fail h hw => exact hI
  | trylock_mutex h hw => exact inv_trylock_mutex hI h hw
  | trylock_cas_succ h hc => exact inv_trylock_cas_succ hI h hc
  | trylock_cas_fail h hc =>
      exact inv_update_plain hI rfl (by rw [h]; rfl) (by rw [h]; rfl)
        (by rw [h]; rfl) (by rw [h]; rfl) (by rw [h]; rfl) (by rw [h]; rfl)
        (by rw [h]; rfl)
  | trylock_bail h => exact inv_trylock_bail hI h
  | tryrlock_load h =>
      exact inv_update_plain hI rfl (by rw [h]; rfl) (by rw [h]; rfl)
        (by rw [h]; rfl) (by rw [h]; rfl) (by rw [h]; rfl) (by rw [h]; rfl)
        (by rw [h]; rfl)
  | tryrlock_neg h hc =>
      exact inv_update_plain hI rfl (by rw [h]; rfl) (by rw [h]; rfl)
        (by rw [h]; rfl) (by rw [h]; rfl) (by rw [h]; rfl) (by rw [h]; rfl)
        (by rw [h]; rfl)
  | tryrlock_cas_succ h hc he => exact inv_tryrlock_cas_succ hn hI h hc he
  | tryrlock_cas_fail h hc he =>
      exact inv_update_plain hI rfl (by rw [h]; rfl) (by rw [h]; rfl)
        (by rw [h]; rfl) (by rw [h]; rfl) (by rw [h]; rfl) (by rw [h]; rfl)
        (by rw [h]; rfl)
  | tryrlock_reload h =>
      exact inv_update_plain hI rfl (by rw [h]; rfl) (by rw [h]; rfl)
        (by rw [h]; rfl) (by rw [h]; rfl) (by rw [h]; rfl) (by rw [h]; rfl)
        (by rw [h]; rfl)

/-- Every reachable state of at most `rwmutexMaxReaders` threads satisfies
the global invariant. -/
theorem reachable_inv {n : Nat} {s : MState n} (hn : n ≤ 1073741824)
    (hr : Reachable n s) : Inv n s := by
  induction hr with
  | refl => exact inv_init n
  | tail _ hstep ih =>
      obtain ⟨t, hst⟩ := hstep
      exact step_inv hn ih hst

end Conc

/-- C3: `RUnlock` atomically decrements `readerCount`; when the result is
nonnegative the operation is complete with no further state change; when it
is negative (and not the fatal misuse case) it decrements `readerWait` and
releases one permit on `writerSem` exactly when `readerWait` reaches zero. -/
theorem RUnlock_spec :
    ∀ rw : RWMutex,
      (0 ≤ wrap32 (rw.readerCount - 1) →
        RWMutex.RUnlock rw =
          { rw := { rw with readerCount := wrap32 (rw.readerCount - 1) } }) ∧
      (wrap32 (rw.readerCount - 1) < 0 →
        ¬(wrap32 (rw.readerCount - 1) + 1 = 0 ∨
          wrap32 (rw.readerCount - 1) + 1 = -rwmutexMaxReaders) →
        (RWMutex.RUnlock rw).rw.readerCount = wrap32 (rw.readerCount - 1) ∧
        (RWMutex.RUnlock rw).rw.readerWait = wrap32 (rw.readerWait - 1) ∧
        (RWMutex.RUnlock rw).rw.w = rw.w ∧
        (RWMutex.RUnlock rw).rw.readerSem = rw.readerSem ∧
        (RWMutex.RUnlock rw).fatal = false ∧
        (wrap32 (rw.readerWait - 1) = 0 →
          (RWMutex.RUnlock rw).rw.writerSem = rw.writerSem + 1) ∧
        (wrap32 (rw.readerWait - 1) ≠ 0 →
          (RWMutex.RUnlock rw).rw.writerSem = rw.writerSem)) := by
  intro rw
  constructor
  · intro hge
    rw [RWMutex.RUnlock]
    simp only [if_neg (by omega : ¬ wrap32 (rw.readerCount - 1) < 0)]
  · intro hlt hnf
    rw [RWMutex.RUnlock]
    simp only [if_pos hlt]
    rw [RWMutex.rUnlockSlow]
    simp only [if_neg hnf]
    by_cases hz : wrap32 (rw.readerWait - 1) = 0
    · simp only [if_pos hz]
      simp [hz]
    · simp only [if_neg hz]
      simp [hz]

/-- C3 witness: the fast path evaluated at a concrete lock state with three
registered readers. -/
theorem RUnlock_spec_witness :
    RWMutex.RUnlock { w := false, writerSem := 0, readerSem := 0,
                      readerCount := 3, readerWait := 0 } =
      { rw := { w := false, writerSem := 0, readerSem := 0,
                readerCount := wrap32 ((3 : Int) - 1), readerWait := 0 } } :=
  (RUnlock_spec _).1 (by decide)

/-- C5: a fatal condition is signaled exactly on the two caller-protocol
violations — `RUnlock` whose decremented count `r` satisfies `r+1 = 0` or
`r+1 = -rwmutexMaxReaders`, and `Unlock` whose restored count is at least
`rwmutexMaxReaders`; `RLock`, `Lock`, `TryRLock` and `TryLock` never signal
any error. -/
theorem fatal_conditions_spec :
    ∀ rw : RWMutex,
      ((RWMutex.RUnlock rw).fatal = true ↔
        (wrap32 (rw.readerCount - 1) + 1 = 0 ∨
         wrap32 (rw.readerCount - 1) + 1 = -rwmutexMaxReaders)) ∧
      ((RWMutex.Unlock rw).fatal = true ↔
        rwmutexMaxReaders ≤ wrap32 (rw.readerCount + rwmutexMaxReaders)) ∧
      (RWMutex.RLock rw).fatal = false ∧
      (RWMutex.Lock rw).fatal = false ∧
      (RWMutex.TryRLock rw).fatal = false ∧
      (RWMutex.TryLock rw).fatal = false := by
  intro rw
  have hM := rwmutexMaxReaders_eq
  have hlb := wrap32_lb (rw.readerCount - 1)
  refine ⟨?_, ?_, ?_, ?_, ?_, ?_⟩
  · rw [RWMutex.RUnlock, RWMutex.rUnlockSlow]
    by_cases hlt : wrap32 (rw.readerCount - 1) < 0
    · simp only [if_pos hlt]
      by_cases hf : wrap32 (rw.readerCount - 1) + 1 = 0 ∨
          wrap32 (rw.readerCount - 1) + 1 = -rwmutexMaxReaders
      · simp only [if_pos hf]
        simpa using hf
      · simp only [if_neg hf]
        by_cases hz : wrap32 (rw.readerWait - 1) = 0
        · simp only [if_pos hz]
          simpa using hf
        · simp only [if_neg hz]
          simpa using hf
    · simp only [if_neg hlt]
      constructor
      · intro hx
        simp at hx
      · intro hx
        omega
  · rw [RWMutex.Unlock]
    by_cases hf : rwmutexMaxReaders ≤ wrap32 (rw.readerCount + rwmutexMaxReaders)
    · simp only [if_pos hf]
      simpa using hf
    · simp only [if_neg hf]
      simpa using hf
  · rfl
  · rw [RWMutex.Lock]
    by_cases hw : rw.w
    · simp only [if_pos hw]
    · simp only [if_neg hw]
      by_cases hr : wrap32 (rw.readerCount - rwmutexMaxReaders)
          + rwmutexMaxReaders ≠ 0
      · simp only [if_pos hr]
      · simp only [if_neg hr]
  · rw [RWMutex.TryRLock]
    by_cases hc : rw.readerCount < 0
    · simp only [if_pos hc]
    · simp only [if_neg hc]
  · rw [RWMutex.TryLock]
    by_cases hw : rw.w
    · simp only [if_pos hw]
    · simp only [if_neg hw]
      by_cases hc : ({ rw with w := true } : RWMutex).readerCount = 0
      · simp only [if_pos hc]
      · simp only [if_neg hc]

/-- C5 witness: `RUnlock` on the zero-value (never-locked) state signals the
fatal condition, since the decremented count is `-1`. -/
theorem fatal_conditions_spec_witness :
    (RWMutex.RUnlock { w := false, writerSem := 0, readerSem := 0,
                       readerCount := 0, readerWait := 0 }).fatal = true :=
  (fatal_conditions_spec _).1.mpr (by decide)

/-- C6: `TryLock` never blocks and never parks; it fails leaving every field
unchanged when the inner mutex is held or when the CAS of `readerCount` from
`0` to `-rwmutexMaxReaders` fails (rolling back the inner mutex), and it
succeeds exactly when the mutex was free and no reader was registered. -/
theorem TryLock_spec :
    ∀ rw : RWMutex,
      (RWMutex.TryLock rw).parked = false ∧
      (RWMutex.TryLock rw).blocked = false ∧
      (RWMutex.TryLock rw).fatal = false ∧
      (rw.w = true → (RWMutex.TryLock rw).ok = false ∧
        (RWMutex.TryLock rw).rw = rw) ∧
      (rw.w = false → rw.readerCount ≠ 0 →
        (RWMutex.TryLock rw).ok = false ∧ (RWMutex.TryLock rw).rw = rw) ∧
      (rw.w = false → rw.readerCount = 0 →
        (RWMutex.TryLock rw).ok = true ∧
        (RWMutex.TryLock rw).rw
          = { rw with w := true, readerCount := -rwmutexMaxReaders }) ∧
      ((RWMutex.TryLock rw).ok = true → rw.w = false ∧ rw.readerCount = 0) := by
  intro rw
  obtain ⟨w, ws, rs, rc, rwt⟩ := rw
  cases w
  · by_cases hc : rc = 0
    · subst hc
      simp [RWMutex.TryLock]
    · simp [RWMutex.TryLock, hc]
  · simp [RWMutex.TryLock]

/-- C6 witness: `TryLock` on the zero-value state succeeds and installs the
writer bias. -/
theorem TryLock_spec_witness :
    (RWMutex.TryLock { w := false, writerSem := 0, readerSem := 0,
                       readerCount := 0, readerWait := 0 }).ok = true :=
  ((TryLock_spec _).2.2.2.2.2.1 rfl rfl).1

/-- C10: on both fatal-misuse paths the counter has already been mutated
when the fatal condition is signaled and is not restored: `RUnlock` leaves
`readerCount` decremented by one, `Unlock` leaves it incremented by
`rwmutexMaxReaders` (modulo 32-bit wrap), and in both cases the resulting
value differs from the value on entry. -/
theorem fatal_paths_mutate_state :
    ∀ rw : RWMutex,
      ((RWMutex.RUnlock rw).fatal = true →
        (RWMutex.RUnlock rw).rw.readerCount = wrap32 (rw.readerCount - 1) ∧
        (RWMutex.RUnlock rw).rw.readerCount ≠ rw.readerCount) ∧
      ((RWMutex.Unlock rw).fatal = true →
        (RWMutex.Unlock rw).rw.readerCount
          = wrap32 (rw.readerCount + rwmutexMaxReaders) ∧
        (RWMutex.Unlock rw).rw.readerCount ≠ rw.readerCount) := by
  intro rw
  have hM := rwmutexMaxReaders_eq
  constructor
  · intro hf
    have he : (RWMutex.RUnlock rw).rw.readerCount = wrap32 (rw.readerCount - 1) := by
      rw [RWMutex.RUnlock, RWMutex.rUnlockSlow]
      by_cases hlt : wrap32 (rw.readerCount - 1) < 0
      · simp only [if_pos hlt]
        by_cases hc : wrap32 (rw.readerCount - 1) + 1 = 0 ∨
            wrap32 (rw.readerCount - 1) + 1 = -rwmutexMaxReaders
        · simp only [if_pos hc]
        · simp only [if_neg hc]
          by_cases hz : wrap32 (rw.readerWait - 1) = 0
          · simp only [if_pos hz]
          · simp only [if_neg hz]
      · simp only [if_neg hlt]
    refine ⟨he, ?_⟩
    rw [he]
    unfold wrap32
    omega
  · intro hf
    have he : (RWMutex.Unlock rw).rw.readerCount
        = wrap32 (rw.readerCount + rwmutexMaxReaders) := by
      rw [RWMutex.Unlock]
      by_cases hc : rwmutexMaxReaders ≤ wrap32 (rw.readerCount + rwmutexMaxReaders)
      · simp only [if_pos hc]
      · simp only [if_neg hc]
    refine ⟨he, ?_⟩
    rw [he]
    unfold wrap32
    omega

/-- C10 witness: `RUnlock` of the zero-value state is fatal misuse, yet the
counter is left at `-1`, not restored to `0`. -/
theorem fatal_paths_mutate_state_witness :
    (RWMutex.RUnlock { w := false, writerSem := 0, readerSem := 0,
                       readerCount := 0, readerWait := 0 }).rw.readerCount ≠ 0 :=
  ((fatal_paths_mutate_state _).1 (by decide)).2

/-- C2 counterexample: at a lock state with `readerCount = 1` and
`readerWait = -1` (one registered reader, one reader having already
pre-decremented `readerWait` in the drain race the design itself describes),
`Lock` runs its `r ≠ 0` branch yet leaves `readerWait = 0`, not
`readerWait = r = 1`: the operation is an add, not a store. -/
theorem Lock_sets_readerWait_cex :
    ({ w := false, writerSem := 0, readerSem := 0, readerCount := 1,
       readerWait := -1 } : RWMutex).w = false ∧
    wrap32 ((1 : Int) - rwmutexMaxReaders) + rwmutexMaxReaders = 1 ∧
    (1 : Int) ≠ 0 ∧
    (RWMutex.Lock { w := false, writerSem := 0, readerSem := 0,
                    readerCount := 1, readerWait := -1 }).rw.readerWait = 0 ∧
    (0 : Int) ≠ 1 := by
  refine ⟨rfl, by decide, by decide, ?_, by decide⟩
  decide

/-- C2 (amended): `Lock` blocks while the inner mutex is held; once it is
acquired, `Lock` subtracts `rwmutexMaxReaders` from `readerCount`; with `r`
the recovered reader count, if `r ≠ 0` it atomically adds `r` to
`readerWait` and parks on `writerSem` unless that add landed on zero, and if
`r = 0` it proceeds immediately touching neither `readerWait` nor either
semaphore. -/
theorem Lock_spec :
    (∀ rw : RWMutex, rw.w = true →
      RWMutex.Lock rw = { rw := rw, blocked := true }) ∧
    (∀ rw : RWMutex, rw.w = false →
      (RWMutex.Lock rw).rw.w = true ∧
      (RWMutex.Lock rw).blocked = false ∧
      (RWMutex.Lock rw).rw.readerCount
        = wrap32 (rw.readerCount - rwmutexMaxReaders) ∧
      (wrap32 (rw.readerCount - rwmutexMaxReaders) + rwmutexMaxReaders ≠ 0 →
        (RWMutex.Lock rw).rw.readerWait
          = wrap32 (rw.readerWait + (wrap32 (rw.readerCount - rwmutexMaxReaders)
              + rwmutexMaxReaders)) ∧
        (RWMutex.Lock rw).rw.readerSem = rw.readerSem ∧
        (RWMutex.Lock rw).rw.writerSem = rw.writerSem ∧
        ((RWMutex.Lock rw).parked = true ↔
          wrap32 (rw.readerWait + (wrap32 (rw.readerCount - rwmutexMaxReaders)
              + rwmutexMaxReaders)) ≠ 0)) ∧
      (wrap32 (rw.readerCount - rwmutexMaxReaders) + rwmutexMaxReaders = 0 →
        (RWMutex.Lock rw).rw.readerWait = rw.readerWait ∧
        (RWMutex.Lock rw).rw.readerSem = rw.readerSem ∧
        (RWMutex.Lock rw).rw.writerSem = rw.writerSem ∧
        (RWMutex.Lock rw).parked = false)) := by
  constructor
  · intro rw hw
    rw [RWMutex.Lock, if_pos hw]
  · intro rw hw
    by_cases hr : wrap32 (rw.readerCount - rwmutexMaxReaders)
        + rwmutexMaxReaders ≠ 0
    · simp [RWMutex.Lock, hw, hr]
    · have hz : wrap32 (rw.readerCount - rwmutexMaxReaders)
          + rwmutexMaxReaders = 0 := not_not.mp hr
      simp [RWMutex.Lock, hw, hz]

/-- C2 witness: `Lock` on a free lock with two registered readers adds the
recovered count `2` to `readerWait` and parks. -/
theorem Lock_spec_witness :
    (RWMutex.Lock { w := false, writerSem := 0, readerSem := 0,
                    readerCount := 2, readerWait := 0 }).rw.readerWait
      = wrap32 (0 + (wrap32 ((2 : Int) - rwmutexMaxReaders)
          + rwmutexMaxReaders)) :=
  ((Lock_spec.2 _ rfl).2.2.2.1 (by decide)).1

namespace Conc

/-- Inversion: the only steps of a thread that has loaded `readerCount` into
`c` inside `TryRLock` are the negative-value failure, the successful CAS and
the failed CAS. -/
theorem step_tryrloaded_inv {n : Nat} {t : Fin n} {s s' : MState n} {c : Int}
    (hst : Step t s s') (hc : s.ts t = .tryRLoaded c) :
    (c < 0 ∧ s' = { s with ts := Function.update s.ts t .idle }) ∨
    (0 ≤ c ∧ s.readerCount = c ∧
      s' = { s with ts := Function.update s.ts t .reading,
                    readerCount := wrap32 (c + 1) }) ∨
    (0 ≤ c ∧ s.readerCount ≠ c ∧
      s' = { s with ts := Function.update s.ts t .tryRRetry }) := by
  cases hst with
  | rlock_fast h g => rw [hc] at h; simp at h
  | rlock_park h g => rw [hc] at h; simp at h
  | rlock_wake h g => rw [hc] at h; simp at h
  | runlock_fast h g => rw [hc] at h; simp at h
  | runlock_slow_enter h g => rw [hc] at h; simp at h
  | runlock_fatal h g => rw [hc] at h; simp at h
  | runlock_wait_dec h g1 g2 => rw [hc] at h; simp at h
  | runlock_wait_zero h g1 g2 => rw [hc] at h; simp at h
  | lock_mutex h g => rw [hc] at h; simp at h
  | lock_bias_zero h g => rw [hc] at h; simp at h
  | lock_bias_pos h g => rw [hc] at h; simp at h
  | lock_wait_add_park h g => rw [hc] at h; simp at h
  | lock_wait_add_zero h g => rw [hc] at h; simp at h
  | lock_wake h g => rw [hc] at h; simp at h
  | unlock_fatal h g => rw [hc] at h; simp at h
  | unlock_start h g => rw [hc] at h; simp at h
  | unlock_release h g => rw [hc] at h; simp at h
  | unlock_mutex h => rw [hc] at h; simp at h
  | trylock_mutex_fail h g => rw [hc] at h; simp at h
  | trylock_mutex h g => rw [hc] at h; simp at h
  | trylock_cas_succ h g => rw [hc] at h; simp at h
  | trylock_cas_fail h g => rw [hc] at h; simp at h
  | trylock_bail h => rw [hc] at h; simp at h
  | tryrlock_load h => rw [hc] at h; simp at h
  | tryrlock_reload h => rw [hc] at h; simp at h
  | tryrlock_neg h g =>
      rw [hc] at h
      injection h with he
      subst he
      exact Or.inl ⟨g, rfl⟩
  | tryrlock_cas_succ h g1 g2 =>
      rw [hc] at h
      injection h with he
      subst he
      exact Or.inr (Or.inl ⟨g1, g2, rfl⟩)
  | tryrlock_cas_fail h g1 g2 =>
      rw [hc] at h
      injection h with he
      subst he
      exact Or.inr (Or.inr ⟨g1, g2, rfl⟩)

/-- Inversion: after a failed CAS, the only step of a `TryRLock` thread is
reloading `readerCount`. -/
theorem step_tryrretry_inv {n : Nat} {t : Fin n} {s s' : MState n}
    (hst : Step t s s') (hc : s.ts t = .tryRRetry) :
    s' = { s with ts := Function.update s.ts t (.tryRLoaded s.readerCount) } := by
  cases hst with
  | rlock_fast h g => rw [hc] at h; simp at h
  | rlock_park h g => rw [hc] at h; simp at h
  | rlock_wake h g => rw [hc] at h; simp at h
  | runlock_fast h g => rw [hc] at h; simp at h
  | runlock_slow_enter h g => rw [hc] at h; simp at h
  | runlock_fatal h g => rw [hc] at h; simp at h
  | runlock_wait_dec h g1 g2 => rw [hc] at h; simp at h
  | runlock_wait_zero h g1 g2 => rw [hc] at h; simp at h
  | lock_mutex h g => rw [hc] at h; simp at h
  | lock_bias_zero h g => rw [hc] at h; simp at h
  | lock_bias_pos h g => rw [hc] at h; simp at h
  | lock_wait_add_park h g => rw [hc] at h; simp at h
  | lock_wait_add_zero h g => rw [hc] at h; simp at h
  | lock_wake h g => rw [hc] at h; simp at h
  | unlock_fatal h g => rw [hc] at h; simp at h
  | unlock_start h g => rw [hc] at h; simp at h
  | unlock_release h g => rw [hc] at h; simp at h
  | unlock_mutex h => rw [hc] at h; simp at h
  | trylock_mutex_fail h g => rw [hc] at h; simp at h
  | trylock_mutex h g => rw [hc] at h; simp at h
  | trylock_cas_succ h g => rw [hc] at h; simp at h
  | trylock_cas_fail h g => rw [hc] at h; simp at h
  | trylock_bail h => rw [hc] at h; simp at h
  | tryrlock_load h => rfl
  | tryrlock_neg h g => rw [hc] at h; simp at h
  | tryrlock_cas_succ h g1 g2 => rw [hc] at h; simp at h
  | tryrlock_cas_fail h g1 g2 => rw [hc] at h; simp at h
  | tryrlock_reload h => rfl

/-- Inversion: the only steps of the writing thread are `Unlock`'s
bias-removing add, with its fatal and normal outcomes. -/
theorem step_writing_inv {n : Nat} {t : Fin n} {s s' : MState n}
    (hst : Step t s s') (hc : s.ts t = .writing) :
    (rwmutexMaxReaders ≤ wrap32 (s.readerCount + rwmutexMaxReaders) ∧
      s' = { s with ts := Function.update s.ts t .fataled,
                    readerCount := wrap32 (s.readerCount + rwmutexMaxReaders) }) ∨
    (wrap32 (s.readerCount + rwmutexMaxReaders) < rwmutexMaxReaders ∧
      s' = { s with ts := (Function.update s.ts t
                 (.unlockLoop (wrap32 (s.readerCount + rwmutexMaxReaders)).toNat)),
                    readerCount := wrap32 (s.readerCount + rwmutexMaxReaders) }) := by
  cases hst with
  | rlock_fast h g => rw [hc] at h; simp at h
  | rlock_park h g => rw [hc] at h; simp at h
  | rlock_wake h g => rw [hc] at h; simp at h
  | runlock_fast h g => rw [hc] at h; simp at h
  | runlock_slow_enter h g => rw [hc] at h; simp at h
  | runlock_fatal h g => rw [hc] at h; simp at h
  | runlock_wait_dec h g1 g2 => rw [hc] at h; simp at h
  | runlock_wait_zero h g1 g2 => rw [hc] at h; simp at h
  | lock_mutex h g => rw [hc] at h; simp at h
  | lock_bias_zero h g => rw [hc] at h; simp at h
  | lock_bias_pos h g => rw [hc] at h; simp at h
  | lock_wait_add_park h g => rw [hc] at h; simp at h
  | lock_wait_add_zero h g => rw [hc] at h; simp at h
  | lock_wake h g => rw [hc] at h; simp at h
  | unlock_fatal h g => exact Or.inl ⟨g, rfl⟩
  | unlock_start h g => exact Or.inr ⟨g, rfl⟩
  | unlock_release h g => rw [hc] at h; simp at h
  | unlock_mutex h => rw [hc] at h; simp at h
  | trylock_mutex_fail h g => rw [hc] at h; simp at h
  | trylock_mutex h g => rw [hc] at h; simp at h
  | trylock_cas_succ h g => rw [hc] at h; simp at h
  | trylock_cas_fail h g => rw [hc] at h; simp at h
  | trylock_bail h => rw [hc] at h; simp at h
  | tryrlock_load h => rw [hc] at h; simp at h
  | tryrlock_neg h g => rw [hc] at h; simp at h
  | tryrlock_cas_succ h g1 g2 => rw [hc] at h; simp at h
  | tryrlock_cas_fail h g1 g2 => rw [hc] at h; simp at h
  | tryrlock_reload h => rw [hc] at h; simp at h

/-- Inversion: the only steps of a thread inside `Unlock`'s release loop are
one `readerSem` release per remaining iteration, and — only once the loop is
exhausted — the final `w.Unlock()`. -/
theorem step_unlockloop_inv {n : Nat} {t : Fin n} {s s' : MState n} {k : Nat}
    (hst : Step t s s') (hc : s.ts t = .unlockLoop k) :
    (0 < k ∧ s' = { s with ts := Function.update s.ts t (.unlockLoop (k - 1)),
                           readerSem := s.readerSem + 1 }) ∨
    (k = 0 ∧ s' = { s with ts := Function.update s.ts t .idle,
                           wlocked := false }) := by
  cases hst with
  | rlock_fast h g => rw [hc] at h; simp at h
  | rlock_park h g => rw [hc] at h; simp at h
  | rlock_wake h g => rw [hc] at h; simp at h
  | runlock_fast h g => rw [hc] at h; simp at h
  | runlock_slow_enter h g => rw [hc] at h; simp at h
  | runlock_fatal h g => rw [hc] at h; simp at h
  | runlock_wait_dec h g1 g2 => rw [hc] at h; simp at h
  | runlock_wait_zero h g1 g2 => rw [hc] at h; simp at h
  | lock_mutex h g => rw [hc] at h; simp at h
  | lock_bias_zero h g => rw [hc] at h; simp at h
  | lock_bias_pos h g => rw [hc] at h; simp at h
  | lock_wait_add_park h g => rw [hc] at h; simp at h
  | lock_wait_add_zero h g => rw [hc] at h; simp at h
  | lock_wake h g => rw [hc] at h; simp at h
  | unlock_fatal h g => rw [hc] at h; simp at h
  | unlock_start h g => rw [hc] at h; simp at h
  | unlock_release h g =>
      rw [hc] at h
      injection h with he
      subst he
      exact Or.inl ⟨g, rfl⟩
  | unlock_mutex h =>
      rw [hc] at h
      injection h with he
      subst he
      exact Or.inr ⟨rfl, rfl⟩
  | trylock_mutex_fail h g => rw [hc] at h; simp at h
  | trylock_mutex h g => rw [hc] at h; simp at h
  | trylock_cas_succ h g => rw [hc] at h; simp at h
  | trylock_cas_fail h g => rw [hc] at h; simp at h
  | trylock_bail h => rw [hc] at h; simp at h
  | tryrlock_load h => rw [hc] at h; simp at h
  | tryrlock_neg h g => rw [hc] at h; simp at h
  | tryrlock_cas_succ h g1 g2 => rw [hc] at h; simp at h
  | tryrlock_cas_fail h g1 g2 => rw [hc] at h; simp at h
  | tryrlock_reload h => rw [hc] at h; simp at h

/-- A step of one thread never changes the status of another thread. -/
theorem step_other_ts_unchanged {n : Nat} {t t' : Fin n} {s s' : MState n}
    (hst : Step t' s s') (hne : t ≠ t') : s'.ts t = s.ts t := by
  cases hst
  case trylock_mutex_fail h g => rfl
  all_goals (dsimp only; rw [Function.update_noteq hne])

/-- While some thread holds the write lock, no step of any thread can enter
the read-side critical section. -/
theorem step_no_new_reader {n : Nat} {s s' : MState n} (hn : n ≤ 1073741824)
    (hI : Inv n s) {t : Fin n} (hw : s.ts t = .writing) {t' : Fin n}
    (hst : Step t' s s') : s'.ts t' ≠ .reading := by
  obtain ⟨e1, e2, e3, e4, e5, e6⟩ := hI.hwrite t hw
  have hM := rwmutexMaxReaders_eq
  cases hst
  case rlock_fast h g =>
    exfalso
    have htt : t ≠ t' := by
      intro he
      rw [← he, hw] at h
      simp at h
    have hKle : cnt isRPark s.ts + 2 ≤ n := by
      apply cnt_add_two_le _ _ t t' htt
      · rw [hw]
        rfl
      · rw [h]
        rfl
    have hw32 : wrap32 (s.readerCount + 1) = s.readerCount + 1 := by
      apply wrap32_eq_self <;> omega
    omega
  case rlock_wake h g =>
    exfalso
    omega
  case tryrlock_cas_succ h g1 g2 =>
    exfalso
    have hKle : cnt isRPark s.ts + 1 ≤ n :=
      cnt_add_one_le _ _ t (by rw [hw]; rfl)
    omega
  case trylock_mutex_fail h g =>
    rw [h]
    simp
  all_goals (dsimp only; rw [Function.update_same]; simp)

/-- While some writer is past the bias subtraction and before `Unlock`'s
bias-removing add, a step of an idle thread never enters the read-side
critical section, and when it is `RLock`'s increment it parks the thread on
`readerSem`. -/
theorem step_idle_parks {n : Nat} {s s' : MState n} (hn : n ≤ 1073741824)
    (hI : Inv n s) {t : Fin n} (hb : isBiased (s.ts t) = true) {t' : Fin n}
    (hidle : s.ts t' = .idle) (hst : Step t' s s') :
    s'.ts t' ≠ .reading ∧
    (s'.readerCount ≠ s.readerCount → s'.ts t' = .rlockPark) := by
  obtain ⟨hCeq, hPK⟩ := biased_count hI hb
  have hM := rwmutexMaxReaders_eq
  have htt : t ≠ t' := by
    intro he
    rw [he, hidle] at hb
    simp [isBiased] at hb
  have hreg2 : cnt isReg s.ts + 2 ≤ n := by
    apply cnt_add_two_le _ _ t t' htt (isReg_false_of_biased hb)
    rw [hidle]
    rfl
  rw [cnt_reg] at hreg2
  have hw32 : wrap32 (s.readerCount + 1) = s.readerCount + 1 := by
    apply wrap32_eq_self <;> omega
  cases hst with
  | rlock_fast h g =>
      exfalso
      omega
  | rlock_park h g =>
      constructor
      · dsimp only
        rw [Function.update_same]
        simp
      · intro _
        dsimp only
        rw [Function.update_same]
  | lock_mutex h g =>
      refine ⟨?_, fun hcc => absurd rfl hcc⟩
      dsimp only
      rw [Function.update_same]
      simp
  | trylock_mutex_fail h g =>
      refine ⟨?_, fun hcc => absurd rfl hcc⟩
      rw [hidle]
      simp
  | trylock_mutex h g =>
      refine ⟨?_, fun hcc => absurd rfl hcc⟩
      dsimp only
      rw [Function.update_same]
      simp
  | tryrlock_load h =>
      refine ⟨?_, fun hcc => absurd rfl hcc⟩
      dsimp only
      rw [Function.update_same]
      simp
  | rlock_wake h g => rw [hidle] at h; simp at h
  | runlock_fast h g => rw [hidle] at h; simp at h
  | runlock_slow_enter h g => rw [hidle] at h; simp at h
  | runlock_fatal h g => rw [hidle] at h; simp at h
  | runlock_wait_dec h g1 g2 => rw [hidle] at h; simp at h
  | runlock_wait_zero h g1 g2 => rw [hidle] at h; simp at h
  | lock_bias_zero h g => rw [hidle] at h; simp at h
  | lock_bias_pos h g => rw [hidle] at h; simp at h
  | lock_wait_add_park h g => rw [hidle] at h; simp at h
  | lock_wait_add_zero h g => rw [hidle] at h; simp at h
  | lock_wake h g => rw [hidle] at h; simp at h
  | unlock_fatal h g => rw [hidle] at h; simp at h
  | unlock_start h g => rw [hidle] at h; simp at h
  | unlock_release h g => rw [hidle] at h; simp at h
  | unlock_mutex h => rw [hidle] at h; simp at h
  | trylock_cas_succ h g => rw [hidle] at h; simp at h
  | trylock_cas_fail h g => rw [hidle] at h; simp at h
  | trylock_bail h => rw [hidle] at h; simp at h
  | tryrlock_neg h g => rw [hidle] at h; simp at h
  | tryrlock_cas_succ h g1 g2 => rw [hidle] at h; simp at h
  | tryrlock_cas_fail h g1 g2 => rw [hidle] at h; simp at h
  | tryrlock_reload h => rw [hidle] at h; simp at h

end Conc

/-- Two-thread scenario: thread `0` has acquired the inner mutex `w` of the
zero-value lock. -/
def lockStep1 : Conc.MState 2 :=
  { Conc.init 2 with ts := Function.update (Conc.init 2).ts 0 .lockPre,
                     wlocked := true }

/-- Thread `0` performed `Lock`'s bias subtraction with no registered
readers and holds the write lock. -/
def lockStep2 : Conc.MState 2 :=
  { lockStep1 with ts := Function.update lockStep1.ts 0 .writing,
                   readerCount := wrap32 (lockStep1.readerCount
                     - rwmutexMaxReaders) }

/-- Thread `0` performed `Unlock`'s bias-removing add and entered the
release loop with zero iterations. -/
def lockStep3 : Conc.MState 2 :=
  { lockStep2 with
      ts := Function.update lockStep2.ts 0
              (.unlockLoop (wrap32 (lockStep2.readerCount
                + rwmutexMaxReaders)).toNat),
      readerCount := wrap32 (lockStep2.readerCount + rwmutexMaxReaders) }

theorem lockStep2_reachable : Conc.Reachable 2 lockStep2 := by
  have s1 : Conc.Step (0 : Fin 2) (Conc.init 2) lockStep1 :=
    Conc.Step.lock_mutex rfl rfl
  have s2 : Conc.Step (0 : Fin 2) lockStep1 lockStep2 :=
    Conc.Step.lock_bias_zero (by decide) (by decide)
  exact Relation.ReflTransGen.tail
    (Relation.ReflTransGen.tail Relation.ReflTransGen.refl ⟨0, s1⟩) ⟨0, s2⟩

theorem lockStep3_step : Conc.Step (0 : Fin 2) lockStep2 lockStep3 :=
  Conc.Step.unlock_start (by decide) (by decide)

/-- Drain-phase scenario: thread `1` of the zero-value lock has acquired a
read lock. -/
def drainStep1 : Conc.MState 2 :=
  { Conc.init 2 with
      ts := Function.update (Conc.init 2).ts 1 .reading,
      readerCount := wrap32 ((Conc.init 2).readerCount + 1) }

/-- Thread `0` has acquired the inner mutex `w` while the reader is active. -/
def drainStep2 : Conc.MState 2 :=
  { drainStep1 with
      ts := Function.update drainStep1.ts 0 .lockPre,
      wlocked := true }

/-- Thread `0` performed `Lock`'s bias subtraction and must now wait for the
one active reader to drain: a pending writer. -/
def drainStep3 : Conc.MState 2 :=
  { drainStep2 with
      ts := Function.update drainStep2.ts 0
              (.lockNoted (wrap32 (drainStep2.readerCount
                - rwmutexMaxReaders) + rwmutexMaxReaders)),
      readerCount := wrap32 (drainStep2.readerCount - rwmutexMaxReaders) }

theorem drainStep3_reachable : Conc.Reachable 2 drainStep3 := by
  have s1 : Conc.Step (1 : Fin 2) (Conc.init 2) drainStep1 :=
    Conc.Step.rlock_fast rfl (by decide)
  have s2 : Conc.Step (0 : Fin 2) drainStep1 drainStep2 :=
    Conc.Step.lock_mutex (by decide) rfl
  have s3 : Conc.Step (0 : Fin 2) drainStep2 drainStep3 :=
    Conc.Step.lock_bias_pos (by decide) (by decide)
  exact Relation.ReflTransGen.tail (Relation.ReflTransGen.tail
    (Relation.ReflTransGen.tail Relation.ReflTransGen.refl ⟨1, s1⟩)
    ⟨0, s2⟩) ⟨0, s3⟩

/-- C1: mutual exclusion — in every reachable state of every interleaving,
while one thread holds the write lock (between a successful `Lock`/`TryLock`
and the matching `Unlock`), no other thread holds the write lock or a read
lock. -/
theorem rwmutex_mutual_exclusion :
    ∀ (n : Nat), n ≤ 1073741824 →
    ∀ s : Conc.MState n, Conc.Reachable n s →
    ∀ t t' : Fin n, s.ts t = Conc.TStatus.writing → t' ≠ t →
      s.ts t' ≠ Conc.TStatus.writing ∧ s.ts t' ≠ Conc.TStatus.reading := by
  intro n hn s hr t t' hw hne
  have hI := Conc.reachable_inv hn hr
  obtain ⟨_, e2, _⟩ := hI.hwrite t hw
  constructor
  · intro hw'
    exact hne (hI.huniq t' t (by rw [hw']; rfl) (by rw [hw]; rfl))
  · intro hr'
    have := Conc.cnt_pos Conc.isReading s.ts t' (by rw [hr']; rfl)
    omega

/-- C1 witness: in the concrete reachable two-thread state where thread `0`
holds the write lock, thread `1` holds neither lock. -/
theorem rwmutex_mutual_exclusion_witness :
    lockStep2.ts 1 ≠ Conc.TStatus.writing ∧
    lockStep2.ts 1 ≠ Conc.TStatus.reading :=
  rwmutex_mutual_exclusion 2 (by norm_num) lockStep2 lockStep2_reachable
    0 1 (by decide) (by decide)

/-- C8: writer non-starvation by late readers — in every reachable state
after a writer has performed `Lock`'s bias subtraction and before the
matching `Unlock` (program points `lockNoted`, `lockPark` and `writing`),
`readerCount` is negative, every `RLock` increment performed by a thread
starting there observes a negative result, an idle thread's step never
enters the read-side critical section and parks on `readerSem` whenever it
is the `RLock` increment, and no step of another thread disturbs the
writer; once `Lock` has returned (`writing`), additionally `readerSem`
holds no permit and no step of any thread at all enters the read-side
critical section, so no `RLock` started after `Lock` returned completes
before the matching `Unlock`. -/
theorem writer_excludes_late_readers :
    ∀ (n : Nat), n ≤ 1073741824 →
    ∀ s : Conc.MState n, Conc.Reachable n s →
    ∀ t : Fin n,
      ((∃ r0, s.ts t = Conc.TStatus.lockNoted r0) ∨
        s.ts t = Conc.TStatus.lockPark ∨ s.ts t = Conc.TStatus.writing) →
      s.readerCount < 0 ∧
      (∀ t' : Fin n, s.ts t' = Conc.TStatus.idle →
        wrap32 (s.readerCount + 1) < 0) ∧
      (∀ (t' : Fin n) (s' : Conc.MState n), s.ts t' = Conc.TStatus.idle →
        Conc.Step t' s s' →
        s'.ts t' ≠ Conc.TStatus.reading ∧
        (s'.readerCount ≠ s.readerCount →
          s'.ts t' = Conc.TStatus.rlockPark)) ∧
      (∀ (t' : Fin n) (s' : Conc.MState n), Conc.Step t' s s' → t' ≠ t →
        s'.ts t = s.ts t) ∧
      (s.ts t = Conc.TStatus.writing →
        s.readerSem = 0 ∧
        (∀ (t' : Fin n) (s' : Conc.MState n), Conc.Step t' s s' →
          s'.ts t' ≠ Conc.TStatus.reading)) := by
  intro n hn s hr t hbst
  have hI := Conc.reachable_inv hn hr
  have hb : Conc.isBiased (s.ts t) = true := by
    rcases hbst with ⟨r0, h⟩ | h | h <;> rw [h] <;> rfl
  obtain ⟨hCeq, hPK⟩ := Conc.biased_count hI hb
  have hM := rwmutexMaxReaders_eq
  have hreg1 : Conc.cnt Conc.isReg s.ts + 1 ≤ n :=
    Conc.cnt_add_one_le _ _ t (Conc.isReg_false_of_biased hb)
  rw [Conc.cnt_reg] at hreg1
  refine ⟨by omega, ?_, ?_, ?_, ?_⟩
  · intro t' hidle
    have htt : t ≠ t' := by
      intro he
      rw [he, hidle] at hb
      simp [Conc.isBiased] at hb
    have hreg2 : Conc.cnt Conc.isReg s.ts + 2 ≤ n := by
      apply Conc.cnt_add_two_le _ _ t t' htt (Conc.isReg_false_of_biased hb)
      rw [hidle]
      rfl
    rw [Conc.cnt_reg] at hreg2
    have hw32 : wrap32 (s.readerCount + 1) = s.readerCount + 1 := by
      apply wrap32_eq_self <;> omega
    omega
  · intro t' s' hidle hst
    exact Conc.step_idle_parks hn hI hb hidle hst
  · intro t' s' hst hne
    exact Conc.step_other_ts_unchanged hst (Ne.symm hne)
  · intro hw
    obtain ⟨e1, e2, e3, e4, e5, e6⟩ := hI.hwrite t hw
    refine ⟨e3, ?_⟩
    intro t' s' hst
    exact Conc.step_no_new_reader hn hI hw hst

/-- C8 witness: in the concrete reachable drain-phase state where thread `0`
is a pending writer (past the bias subtraction, waiting for the one active
reader), `readerCount` is negative. -/
theorem writer_excludes_late_readers_witness : drainStep3.readerCount < 0 :=
  (writer_excludes_late_readers 2 (by norm_num) drainStep3 drainStep3_reachable
    0 (Or.inl ⟨wrap32 (drainStep2.readerCount - rwmutexMaxReaders)
      + rwmutexMaxReaders, by decide⟩)).1

/-- C9: `rwmutexMaxReaders` is `2^30`, and in every reachable state with at
most `rwmutexMaxReaders` threads the `readerCount` arithmetic of `Lock` (the
bias subtraction, performed from the `lockPre` program point) and of
`Unlock` (the bias-removing add, performed from the `writing` program point)
stays inside the signed 32-bit range, so the wraparound is the identity. -/
theorem maxreaders_no_overflow :
    rwmutexMaxReaders = 2 ^ 30 ∧
    (∀ (n : Nat), n ≤ 1073741824 →
      ∀ s : Conc.MState n, Conc.Reachable n s →
        (-rwmutexMaxReaders ≤ s.readerCount ∧
          s.readerCount ≤ rwmutexMaxReaders) ∧
        (∀ t : Fin n, s.ts t = Conc.TStatus.lockPre →
          -2147483648 ≤ s.readerCount - rwmutexMaxReaders ∧
          s.readerCount - rwmutexMaxReaders < 2147483648 ∧
          wrap32 (s.readerCount - rwmutexMaxReaders)
            = s.readerCount - rwmutexMaxReaders) ∧
        (∀ t : Fin n, s.ts t = Conc.TStatus.writing →
          -2147483648 ≤ s.readerCount + rwmutexMaxReaders ∧
          s.readerCount + rwmutexMaxReaders < 2147483648 ∧
          wrap32 (s.readerCount + rwmutexMaxReaders)
            = s.readerCount + rwmutexMaxReaders)) := by
  have hM := rwmutexMaxReaders_eq
  constructor
  · rw [hM]
    norm_num
  · intro n hn s hr
    have hI := Conc.reachable_inv hn hr
    have hRK : Conc.cnt Conc.isReading s.ts + Conc.cnt Conc.isRPark s.ts ≤ n := by
      rw [← Conc.cnt_reg]
      exact Conc.cnt_le _ _
    refine ⟨?_, ?_, ?_⟩
    · by_cases hex : ∃ u, Conc.isBiased (s.ts u) = true
      · obtain ⟨u, hu⟩ := hex
        obtain ⟨hCeq, _⟩ := Conc.biased_count hI hu
        omega
      · push_neg at hex
        have hnb : ∀ u, Conc.isBiased (s.ts u) = false := by
          intro u
          cases hbu : Conc.isBiased (s.ts u)
          · rfl
          · exact absurd hbu (hex u)
        have hC := hI.hCq hnb
        omega
    · intro t ht
      have hnb : ∀ u, Conc.isBiased (s.ts u) = false := by
        intro u
        cases hbu : Conc.isBiased (s.ts u)
        · rfl
        · exfalso
          have heq := hI.huniq u t (Conc.isHolder_of_biased hbu)
            (by rw [ht]; rfl)
          rw [heq, ht] at hbu
          simp [Conc.isBiased] at hbu
      have hC := hI.hCq hnb
      have hreg : Conc.cnt Conc.isReg s.ts + 1 ≤ n :=
        Conc.cnt_add_one_le _ _ t (by rw [ht]; rfl)
      rw [Conc.cnt_reg] at hreg
      have hw32 : wrap32 (s.readerCount - rwmutexMaxReaders)
          = s.readerCount - rwmutexMaxReaders := by
        apply wrap32_eq_self <;> omega
      exact ⟨by omega, by omega, hw32⟩
    · intro t ht
      obtain ⟨e1, e2, e3, e4, e5, e6⟩ := hI.hwrite t ht
      have hKle : Conc.cnt Conc.isRPark s.ts + 1 ≤ n :=
        Conc.cnt_add_one_le _ _ t (by rw [ht]; rfl)
      have hw32 : wrap32 (s.readerCount + rwmutexMaxReaders)
          = s.readerCount + rwmutexMaxReaders := by
        apply wrap32_eq_self <;> omega
      exact ⟨by omega, by omega, hw32⟩

/-- C9 witness: the bounds evaluated in the concrete reachable state where
thread `0` holds the write lock. -/
theorem maxreaders_no_overflow_witness :
    -rwmutexMaxReaders ≤ lockStep2.readerCount ∧
    lockStep2.readerCount ≤ rwmutexMaxReaders :=
  ((maxreaders_no_overflow.2 2 (by norm_num) lockStep2
    lockStep2_reachable).1)

/-- C4: `Unlock` atomically adds `rwmutexMaxReaders` back to `readerCount`
obtaining `r`; if `r ≥ rwmutexMaxReaders` it signals the fatal error before
touching anything else; otherwise it performs exactly `r` single-permit
releases on `readerSem` and only after the last of them releases
`writerLock`; moreover in every reachable protocol state the restored count
is below the maximum and equals the number of readers that queued while the
writer held the lock. -/
theorem Unlock_step_spec :
    (∀ (n : Nat) (t : Fin n) (s s' : Conc.MState n), Conc.Step t s s' →
      (s.ts t = Conc.TStatus.writing →
        (rwmutexMaxReaders ≤ wrap32 (s.readerCount + rwmutexMaxReaders) ∧
          s' = { s with
                   ts := Function.update s.ts t Conc.TStatus.fataled,
                   readerCount := wrap32 (s.readerCount
                     + rwmutexMaxReaders) }) ∨
        (wrap32 (s.readerCount + rwmutexMaxReaders) < rwmutexMaxReaders ∧
          s' = { s with
                   ts := Function.update s.ts t
                           (Conc.TStatus.unlockLoop
                             (wrap32 (s.readerCount
                               + rwmutexMaxReaders)).toNat),
                   readerCount := wrap32 (s.readerCount
                     + rwmutexMaxReaders) })) ∧
      (∀ k, s.ts t = Conc.TStatus.unlockLoop k →
        (0 < k ∧ s' = { s with
                          ts := Function.update s.ts t
                                  (Conc.TStatus.unlockLoop (k - 1)),
                          readerSem := s.readerSem + 1 }) ∨
        (k = 0 ∧ s' = { s with
                          ts := Function.update s.ts t Conc.TStatus.idle,
                          wlocked := false }))) ∧
    (∀ (n : Nat), n ≤ 1073741824 →
      ∀ s : Conc.MState n, Conc.Reachable n s →
      ∀ t : Fin n, s.ts t = Conc.TStatus.writing →
        wrap32 (s.readerCount + rwmutexMaxReaders) < rwmutexMaxReaders ∧
        (wrap32 (s.readerCount + rwmutexMaxReaders)).toNat
          = Conc.cnt Conc.isRPark s.ts) := by
  constructor
  · intro n t s s' hst
    constructor
    · intro hw
      exact Conc.step_writing_inv hst hw
    · intro k hk
      exact Conc.step_unlockloop_inv hst hk
  · intro n hn s hr t hw
    have hI := Conc.reachable_inv hn hr
    obtain ⟨e1, e2, e3, e4, e5, e6⟩ := hI.hwrite t hw
    have hM := rwmutexMaxReaders_eq
    have hKle : Conc.cnt Conc.isRPark s.ts + 1 ≤ n :=
      Conc.cnt_add_one_le _ _ t (by rw [hw]; rfl)
    have hw32 : wrap32 (s.readerCount + rwmutexMaxReaders)
        = s.readerCount + rwmutexMaxReaders := by
      apply wrap32_eq_self <;> omega
    constructor
    · omega
    · omega

/-- C4 witness: the restored count in the concrete reachable writing state
is below the maximum and matches the (empty) queue of parked readers. -/
theorem Unlock_step_spec_witness :
    wrap32 (lockStep2.readerCount + rwmutexMaxReaders) < rwmutexMaxReaders :=
  (Unlock_step_spec.2 2 (by norm_num) lockStep2 lockStep2_reachable
    0 (by decide)).1

/-- C7: `TryRLock` never blocks; it returns false at once when the loaded
`readerCount` is negative; otherwise it attempts a CAS from the observed
value `c` to `c+1`, retrying the load-and-CAS loop when the CAS loses a
race, and it returns true exactly when a CAS commits, having incremented
`readerCount` by one and changed nothing else. -/
theorem TryRLock_spec :
    (∀ rw : RWMutex,
      (RWMutex.TryRLock rw).parked = false ∧
      (RWMutex.TryRLock rw).blocked = false ∧
      (rw.readerCount < 0 →
        RWMutex.TryRLock rw = { rw := rw, ok := false }) ∧
      (0 ≤ rw.readerCount →
        (RWMutex.TryRLock rw).ok = true ∧
        (RWMutex.TryRLock rw).rw
          = { rw with readerCount := wrap32 (rw.readerCount + 1) })) ∧
    (∀ (n : Nat) (t : Fin n) (s s' : Conc.MState n), Conc.Step t s s' →
      (∀ c, s.ts t = Conc.TStatus.tryRLoaded c →
        (c < 0 →
          s' = { s with ts := Function.update s.ts t Conc.TStatus.idle }) ∧
        (0 ≤ c → s.readerCount = c →
          s' = { s with
                   ts := Function.update s.ts t Conc.TStatus.reading,
                   readerCount := wrap32 (c + 1) }) ∧
        (0 ≤ c → s.readerCount ≠ c →
          s' = { s with
                   ts := Function.update s.ts t Conc.TStatus.tryRRetry })) ∧
      (s.ts t = Conc.TStatus.tryRRetry →
        s' = { s with
                 ts := Function.update s.ts t
                         (Conc.TStatus.tryRLoaded s.readerCount) })) ∧
    (∀ (n : Nat) (t : Fin n) (s : Conc.MState n),
      (∀ c, s.ts t = Conc.TStatus.tryRLoaded c →
        ∃ s', Conc.Step t s s') ∧
      (s.ts t = Conc.TStatus.tryRRetry → ∃ s', Conc.Step t s s')) := by
  refine ⟨?_, ?_, ?_⟩
  · intro rw
    refine ⟨?_, ?_, ?_, ?_⟩
    · rw [RWMutex.TryRLock]
      by_cases hc : rw.readerCount < 0
      · rw [if_pos hc]
      · rw [if_neg hc]
    · rw [RWMutex.TryRLock]
      by_cases hc : rw.readerCount < 0
      · rw [if_pos hc]
      · rw [if_neg hc]
    · intro hc
      rw [RWMutex.TryRLock, if_pos hc]
    · intro hge
      rw [RWMutex.TryRLock, if_neg (by omega : ¬ rw.readerCount < 0)]
      exact ⟨rfl, rfl⟩
  · intro n t s s' hst
    constructor
    · intro c hc
      refine ⟨?_, ?_, ?_⟩
      · intro hneg
        rcases Conc.step_tryrloaded_inv hst hc with ⟨_, he⟩ | ⟨hge, _, _⟩
          | ⟨hge, _, _⟩
        · exact he
        · omega
        · omega
      · intro hge heq
        rcases Conc.step_tryrloaded_inv hst hc with ⟨hneg, _⟩ | ⟨_, _, he⟩
          | ⟨_, hne, _⟩
        · omega
        · exact he
        · exact absurd heq hne
      · intro hge hne
        rcases Conc.step_tryrloaded_inv hst hc with ⟨hneg, _⟩ | ⟨_, heq, _⟩
          | ⟨_, _, he⟩
        · omega
        · exact absurd heq hne
        · exact he
    · intro hc
      exact Conc.step_tryrretry_inv hst hc
  · intro n t s
    constructor
    · intro c hc
      by_cases hneg : c < 0
      · exact ⟨_, Conc.Step.tryrlock_neg hc hneg⟩
      · by_cases heq : s.readerCount = c
        · exact ⟨_, Conc.Step.tryrlock_cas_succ hc (by omega) heq⟩
        · exact ⟨_, Conc.Step.tryrlock_cas_fail hc (by omega) heq⟩
    · intro hc
      exact ⟨_, Conc.Step.tryrlock_reload hc⟩

/-- C7 witness: `TryRLock` on a lock state with five registered readers
succeeds and increments the count. -/
theorem TryRLock_spec_witness :
    (RWMutex.TryRLock { w := false, writerSem := 0, readerSem := 0,
                        readerCount := 5, readerWait := 0 }).ok = true :=
  ((TryRLock_spec.1 _).2.2.2 (by decide)).1
